import Mathlib

set_option maxHeartbeats 1000000

/-! Shallow embedding of the Elo rating engine of the tm-q-bot repository:
the SQL data model (migration file), the `EloService.processMatch` routine
with its transactional client semantics, the concurrent execution of two
such transactions, and the periodic polling trigger (`startEloPolling` in
`src/index.ts`).  Real numbers model the source's IEEE-double arithmetic;
every number the claims touch is exactly representable, so the models
agree at those inputs. -/

/-- A row of the `scrims` table (the columns processMatch reads/writes). -/
structure Scrim where
  id : Nat
  status : String
  league : String
  winner_team : Option Nat
  elo_processed : Bool
  deriving DecidableEq, Inhabited

/-- A row of the `scrim_players` table. -/
structure SP where
  scrim_id : Nat
  player_id : Nat
  deriving DecidableEq, Inhabited

/-- A row of the `match_player_stats` table (only the team assignment matters here). -/
structure MPS where
  scrim_id : Nat
  player_id : Nat
  team_id : Nat
  deriving DecidableEq, Inhabited

/-- A row of the `elo_ratings` table. -/
structure EloRating where
  player_id : Nat
  league : String
  rating : ℤ
  wins : Nat
  losses : Nat
  deriving DecidableEq, Inhabited

/-- A row of the `elo_history` table (`change_amount` is derived, omitted). -/
structure HistoryEntry where
  player_id : Nat
  scrim_id : Nat
  old_rating : ℤ
  new_rating : ℤ
  deriving DecidableEq, Inhabited

/-- The database state the Elo service operates on. -/
structure DB where
  scrims : List Scrim
  scrim_players : List SP
  match_player_stats : List MPS
  elo_ratings : List EloRating
  elo_history : List HistoryEntry
  deriving DecidableEq, Inhabited

/-- A row returned by the participants query of `processMatch`
(`SELECT sp.player_id, mps.team_id ... LEFT JOIN ... GROUP BY`):
`team_id` is `none` when the player has no `match_player_stats` row. -/
structure ScrimPlayer where
  player_id : Nat
  team_id : Option Nat
  deriving DecidableEq, Inhabited

/-- The (unreturned) terminal control paths of `processMatch`:
commit with writes, the already-processed early return, and the
missing-team-assignment early return. -/
inductive Outcome where
  | Processed
  | AlreadyProcessed
  | SkippedIncompleteTeams
  deriving DecidableEq, Inhabited

/-- `EloService.calculateNewRating`: fixed K = 32, logistic expected score
against the opponent rating, result rounded half-up (`Math.round`, which is
`round` here since both are `⌊x + 1/2⌋`). -/
noncomputable def calculateNewRating (currentRating opponentRating result : ℚ) : ℤ :=
  let expectedScore : ℝ := 1 / (1 + (10 : ℝ) ^ (((opponentRating - currentRating : ℚ) : ℝ) / 400))
  round ((currentRating : ℝ) + 32 * ((result : ℝ) - expectedScore))

/-- The `SELECT * FROM scrims WHERE id = $1` read (first matching row). -/
def findScrim (d : DB) (scrimId : Nat) : Option Scrim :=
  d.scrims.find? fun s => s.id == scrimId

/-- The `SELECT * FROM elo_ratings WHERE player_id = $1 AND league = $2` read. -/
def findRating (d : DB) (pid : Nat) (lg : String) : Option EloRating :=
  d.elo_ratings.find? fun r => r.player_id == pid && r.league == lg

/-- The participants query of `processMatch`:
`scrim_players` rows for the scrim, LEFT JOINed with `match_player_stats`
team assignments, GROUP BY (player, team) to drop duplicates from multiple
maps; a player with no stats row yields a single row with a NULL team. -/
def playersQuery (d : DB) (scrimId : Nat) : List ScrimPlayer :=
  (((d.scrim_players.filter fun q => q.scrim_id == scrimId).map fun q => q.player_id).dedup).flatMap
    fun pid =>
      let teams := ((d.match_player_stats.filter fun m =>
        m.scrim_id == scrimId && m.player_id == pid).map fun m => m.team_id).dedup
      if teams = [] then [⟨pid, none⟩] else teams.map fun t => ⟨pid, some t⟩

/-- The default rating record processMatch synthesizes in memory for a player
with no `elo_ratings` row (rating 1000, zero wins/losses); not persisted. -/
def defaultRating (pid : Nat) (lg : String) : EloRating :=
  ⟨pid, lg, 1000, 0, 0⟩

/-- The in-memory `Map<number, EloRating>` of step 3 of processMatch,
as an association list (`set` overwrites an existing key). -/
def mapSet (m : List (Nat × EloRating)) (k : Nat) (v : EloRating) : List (Nat × EloRating) :=
  if m.any fun q => q.1 == k then m.map fun q => if q.1 = k then (k, v) else q
  else m ++ [(k, v)]

/-- Lookup in the in-memory ratings map. -/
def mapGet (m : List (Nat × EloRating)) (k : Nat) : Option EloRating :=
  (m.find? fun q => q.1 == k).map fun q => q.2

/-- Step 3 of `processMatch`: for each participant read their rating row and
record it (or the synthesized default) in the in-memory map. -/
def ratingsMapOf (d : DB) (players : List ScrimPlayer) (lg : String) :
    List (Nat × EloRating) :=
  players.foldl
    (fun acc p =>
      mapSet acc p.player_id
        (match findRating d p.player_id lg with
         | some r => r
         | none => defaultRating p.player_id lg))
    []

/-- The `INSERT ... ON CONFLICT (player_id, league) DO UPDATE` upsert of
`updatePlayerRating`: rating is overwritten with the new value, wins/losses
are incremented (the insert branch seeds them with the same increments). -/
def upsertRating (rs : List EloRating) (pid : Nat) (lg : String) (newR : ℤ) (w l : Nat) :
    List EloRating :=
  if rs.any fun r => r.player_id == pid && r.league == lg then
    rs.map fun r =>
      if r.player_id = pid ∧ r.league = lg then
        { r with rating := newR, wins := r.wins + w, losses := r.losses + l }
      else r
  else rs ++ [⟨pid, lg, newR, w, l⟩]

/-- The two writes of `EloService.updatePlayerRating` applied to a database
state: the rating upsert followed by the history insert. -/
def applyUpdatePlayerRating (d : DB) (pid scrimId : Nat) (lg : String)
    (cur : EloRating) (newR : ℤ) (isWin : Bool) : DB :=
  let w : Nat := if isWin then 1 else 0
  let l : Nat := if isWin then 0 else 1
  let d1 := { d with elo_ratings := upsertRating d.elo_ratings pid lg newR w l }
  { d1 with elo_history := d1.elo_history ++ [⟨pid, scrimId, cur.rating, newR⟩] }

/-- The `UPDATE scrims SET elo_processed = TRUE WHERE id = $1` write. -/
def setProcessedDB (d : DB) (scrimId : Nat) : DB :=
  { d with scrims := d.scrims.map fun s =>
      if s.id = scrimId then { s with elo_processed := true } else s }

/-- One iteration of the per-team update loops of `processMatch`: look the
player up in the pre-match ratings map, compute the new rating against the
opposing team average, and apply `updatePlayerRating`. -/
noncomputable def teamUpdateStep (scrimId : Nat) (lg : String)
    (ratings : List (Nat × EloRating)) (oppAvg result : ℚ) (isWin : Bool)
    (d : DB) (p : ScrimPlayer) : DB :=
  let currentRating := (mapGet ratings p.player_id).getD (defaultRating p.player_id lg)
  let newRating := calculateNewRating (currentRating.rating : ℚ) oppAvg result
  applyUpdatePlayerRating d p.player_id scrimId lg currentRating newRating isWin

/-- Mean pre-match rating of a team, read from the in-memory ratings map. -/
noncomputable def teamAvgOf (ratings : List (Nat × EloRating)) (lg : String)
    (team : List ScrimPlayer) : ℚ :=
  (team.map fun p =>
    (((mapGet ratings p.player_id).getD (defaultRating p.player_id lg)).rating : ℚ)).sum
    / (team.length : ℚ)

/-- `EloService.processMatch`, sequential semantics with no store failures:
the guards, the participant partition, the Elo updates for both teams, and
the processed-flag write, returning the terminal control path together with
the committed database (unchanged on the rollback paths; the thrown-error
paths leave the state with the caller). -/
noncomputable def processMatchPure (d : DB) (scrimId : Nat) :
    Except String (Outcome × DB) :=
  match findScrim d scrimId with
  | none => .error "Scrim not found"
  | some scrim =>
    if scrim.status ≠ "completed" then .error "Scrim is not completed"
    else if scrim.elo_processed then .ok (.AlreadyProcessed, d)
    else
      match scrim.winner_team with
      | none => .error "Scrim has no winner_team set"
      | some winner =>
        let players := playersQuery d scrimId
        let ratings := ratingsMapOf d players scrim.league
        let team1 := players.filter fun p => p.team_id == some 1
        let team2 := players.filter fun p => p.team_id == some 2
        if team1.length = 0 ∨ team2.length = 0 then .ok (.SkippedIncompleteTeams, d)
        else
          let team1Avg := teamAvgOf ratings scrim.league team1
          let team2Avg := teamAvgOf ratings scrim.league team2
          let team1Result : ℚ := if winner = 1 then 1 else 0
          let team2Result : ℚ := if winner = 2 then 1 else 0
          let d1 := team1.foldl
            (teamUpdateStep scrim.id scrim.league ratings team2Avg team1Result (winner = 1)) d
          let d2 := team2.foldl
            (teamUpdateStep scrim.id scrim.league ratings team1Avg team2Result (winner = 2)) d1
          .ok (.Processed, setProcessedDB d2 scrimId)

/-- The control path taken by a processMatch run, if it did not throw. -/
def outcomeOf : Except String (Outcome × DB) → Option Outcome
  | .ok (o, _) => some o
  | .error _ => none

/-- The committed database after a processMatch run: on a throw the
transaction was rolled back, so the pre-call state `d0` stands. -/
def dbOf (d0 : DB) : Except String (Outcome × DB) → DB
  | .ok (_, d) => d
  | .error _ => d0

/-- Number of `elo_history` rows for a given player and scrim. -/
def historyCount (d : DB) (pid scrimId : Nat) : Nat :=
  (d.elo_history.filter fun h => h.player_id == pid && h.scrim_id == scrimId).length

/-- The SQL statements `processMatch` issues through its pooled client
(`client.query(...)` calls), as an effect signature: transaction control
plus the reads and writes of the routine, indexed by their result type. -/
inductive QueryOp : Type → Type where
  | beginTx : QueryOp Unit
  | commitTx : QueryOp Unit
  | rollbackTx : QueryOp Unit
  | selectScrim : Nat → QueryOp (Option Scrim)
  | selectPlayers : Nat → QueryOp (List ScrimPlayer)
  | selectRating : Nat → String → QueryOp (Option EloRating)
  | upsertOp : Nat → String → ℤ → Nat → Nat → QueryOp Unit
  | insertHistoryOp : Nat → Nat → ℤ → ℤ → QueryOp Unit
  | setProcessedOp : Nat → QueryOp Unit

/-- Result a statement returns when executed against a database view. -/
def QueryOp.res {α : Type} : QueryOp α → DB → α
  | .beginTx, _ => ()
  | .commitTx, _ => ()
  | .rollbackTx, _ => ()
  | .selectScrim sid, d => findScrim d sid
  | .selectPlayers sid, d => playersQuery d sid
  | .selectRating pid lg, d => findRating d pid lg
  | .upsertOp _ _ _ _ _, _ => ()
  | .insertHistoryOp _ _ _ _, _ => ()
  | .setProcessedOp _, _ => ()

/-- Write effect of a statement on a database. -/
def QueryOp.wr {α : Type} : QueryOp α → DB → DB
  | .upsertOp pid lg newR w l, d =>
      { d with elo_ratings := upsertRating d.elo_ratings pid lg newR w l }
  | .insertHistoryOp pid sid oldR newR, d =>
      { d with elo_history := d.elo_history ++ [⟨pid, sid, oldR, newR⟩] }
  | .setProcessedOp sid, d => setProcessedDB d sid
  | _, d => d

/-- Resumption representation of the body of `processMatch`: a sequence of
statements with continuations, ending in a returned value or a thrown
error.  Interpreting it one statement at a time is what lets the
transactional and the interleaved semantics share one program. -/
inductive Prog : Type → Type 1 where
  | pure {α : Type} : α → Prog α
  | fail {α : Type} : String → Prog α
  | bind {α β : Type} : QueryOp β → (β → Prog α) → Prog α

/-- Sequencing of programs (monadic bind). -/
def Prog.bindP {α β : Type} : Prog α → (α → Prog β) → Prog β
  | .pure a, f => f a
  | .fail e, _ => .fail e
  | .bind q k, f => .bind q fun b => (k b).bindP f

instance : Monad Prog where
  pure := Prog.pure
  bind := Prog.bindP

/-- A single `client.query(...)` call. -/
def query {α : Type} (op : QueryOp α) : Prog α := .bind op .pure

/-- A pooled Postgres client: the committed store plus, when a transaction
is open, the transaction's accumulated (still uncommitted) writes. -/
structure Client where
  committed : DB
  txn : Option (DB → DB)

/-- What a statement of this client reads: the latest committed data
overlaid with the client's own uncommitted writes (READ COMMITTED). -/
def Client.view (c : Client) : DB :=
  match c.txn with
  | some f => f c.committed
  | none => c.committed

/-- Interpreter state: the client, a statement counter, and an injected
store-failure point (the tick whose statement fails), modelling the
spec's store/transaction failures. -/
structure St where
  client : Client
  tick : Nat
  failAt : Option Nat

/-- Execute one statement: it may fail (injected store failure); BEGIN
opens a transaction, COMMIT publishes the accumulated writes, ROLLBACK
discards them; any other statement reads the client's view and appends
its write effect to the open transaction. -/
def stepOp {α : Type} (op : QueryOp α) (s : St) : Except String α × St :=
  if s.failAt = some s.tick then (.error "query failed", { s with tick := s.tick + 1 })
  else
    let s1 : St := { s with tick := s.tick + 1 }
    match op with
    | .beginTx => (.ok (), { s1 with client := { s.client with txn := some id } })
    | .commitTx => (.ok (), { s1 with client := ⟨s.client.view, none⟩ })
    | .rollbackTx => (.ok (), { s1 with client := { s.client with txn := none } })
    | op =>
      match s.client.txn with
      | some f =>
        (.ok (op.res s.client.view),
         { s1 with client := { s.client with txn := some fun db => op.wr (f db) } })
      | none =>
        (.ok (op.res s.client.committed), { s1 with client := ⟨op.wr s.client.committed, none⟩ })

/-- Run a program statement by statement; a thrown statement error aborts
the rest of the program. -/
def runP {α : Type} : Prog α → St → Except String α × St
  | .pure a, s => (.ok a, s)
  | .fail e, s => (.error e, s)
  | .bind op k, s =>
    match stepOp op s with
    | (.ok b, s1) => runP (k b) s1
    | (.error e, s1) => (.error e, s1)

/-- Step 3 of `processMatch` as a program: one rating select per
participant, recording the row or the synthesized default in the map. -/
def ratingsStepProg (lg : String) (acc : List (Nat × EloRating)) (p : ScrimPlayer) :
    Prog (List (Nat × EloRating)) := do
  let r? ← query (.selectRating p.player_id lg)
  match r? with
  | some r => return mapSet acc p.player_id r
  | none => return mapSet acc p.player_id (defaultRating p.player_id lg)

/-- `EloService.updatePlayerRating` as a program: the upsert then the
history insert. -/
def updatePlayerRatingProg (pid scrimId : Nat) (lg : String) (cur : EloRating)
    (newR : ℤ) (isWin : Bool) : Prog Unit := do
  let w : Nat := if isWin then 1 else 0
  let l : Nat := if isWin then 0 else 1
  query (.upsertOp pid lg newR w l)
  query (.insertHistoryOp pid scrimId cur.rating newR)

/-- One iteration of the per-team update loops, as a program. -/
noncomputable def teamStepProg (scrimId : Nat) (lg : String)
    (ratings : List (Nat × EloRating)) (oppAvg result : ℚ) (isWin : Bool)
    (_x : Unit) (p : ScrimPlayer) : Prog Unit :=
  let cur := (mapGet ratings p.player_id).getD (defaultRating p.player_id lg)
  updatePlayerRatingProg p.player_id scrimId lg cur
    (calculateNewRating (cur.rating : ℚ) oppAvg result) isWin

/-- Statements of `processMatch` after the participants and ratings have
been fetched: the team partition guard, the per-team update loops, the
processed-flag write and the commit. -/
noncomputable def processMatchTeams (scrim : Scrim) (scrimId winner : Nat)
    (players : List ScrimPlayer) (ratings : List (Nat × EloRating)) : Prog Outcome := do
  let team1 := players.filter fun p => p.team_id == some 1
  let team2 := players.filter fun p => p.team_id == some 2
  if team1.length = 0 ∨ team2.length = 0 then do
    query .rollbackTx
    return .SkippedIncompleteTeams
  else do
    let team1Avg := teamAvgOf ratings scrim.league team1
    let team2Avg := teamAvgOf ratings scrim.league team2
    let team1Result : ℚ := if winner = 1 then 1 else 0
    let team2Result : ℚ := if winner = 2 then 1 else 0
    let _ ← team1.foldlM
      (teamStepProg scrim.id scrim.league ratings team2Avg team1Result (winner = 1)) ()
    let _ ← team2.foldlM
      (teamStepProg scrim.id scrim.league ratings team1Avg team2Result (winner = 2)) ()
    query (.setProcessedOp scrimId)
    query .commitTx
    return .Processed

/-- Statements of `processMatch` once the scrim row has been read: the
guards, then the participant fetch, the ratings map, and the rest. -/
noncomputable def processMatchBody (scrimId : Nat) (scrim? : Option Scrim) : Prog Outcome :=
  match scrim? with
  | none => Prog.fail "Scrim not found"
  | some scrim =>
    if scrim.status ≠ "completed" then Prog.fail "Scrim is not completed"
    else if scrim.elo_processed then do
      query .rollbackTx
      return .AlreadyProcessed
    else
      match scrim.winner_team with
      | none => Prog.fail "Scrim has no winner_team set"
      | some winner => do
        let players ← query (.selectPlayers scrimId)
        let ratings ← players.foldlM (ratingsStepProg scrim.league) []
        processMatchTeams scrim scrimId winner players ratings

/-- The body of `EloService.processMatch` (the `try` block), statement by
statement, translated from the source. -/
noncomputable def processMatchProg (scrimId : Nat) : Prog Outcome := do
  query .beginTx
  let scrim? ← query (.selectScrim scrimId)
  processMatchBody scrimId scrim?

/-- `EloService.processMatch` under the transactional client semantics:
run the body from a fresh client over the committed store `d`; on a thrown
error the `catch` block rolls the transaction back and rethrows, so the
caller observes the error and the committed store of the returned pair. -/
noncomputable def processMatch (failAt : Option Nat) (d : DB) (scrimId : Nat) :
    Except String Outcome × DB :=
  match runP (processMatchProg scrimId) ⟨⟨d, none⟩, 0, failAt⟩ with
  | (.ok o, s) => (.ok o, s.client.committed)
  | (.error e, s) => (.error e, { s.client with txn := none }.committed)

/-! Interpreter lemmas: how `runP` acts on sequenced programs and on each
statement when no failure is injected. -/

@[simp] theorem bind_eq_bindP {α β : Type} (p : Prog α) (f : α → Prog β) :
    (p >>= f) = p.bindP f := rfl

@[simp] theorem pure_eq_pureP {α : Type} (a : α) :
    (Pure.pure a : Prog α) = Prog.pure a := rfl

theorem runP_bindP {α β : Type} (p : Prog α) (f : α → Prog β) (s : St) :
    runP (p.bindP f) s =
      match runP p s with
      | (.ok a, s1) => runP (f a) s1
      | (.error e, s1) => (.error e, s1) := by
  induction p generalizing s with
  | pure a => rfl
  | fail e => rfl
  | bind op k ih =>
    show runP (.bind op fun b => (k b).bindP f) s = _
    simp only [runP]
    rcases stepOp op s with ⟨r, s1⟩
    cases r with
    | ok b => exact ih b s1
    | error e => rfl

theorem stepOp_begin (c : Client) (t : Nat) :
    stepOp .beginTx ⟨c, t, none⟩ = (.ok (), ⟨⟨c.committed, some id⟩, t + 1, none⟩) := rfl

theorem stepOp_commit (com : DB) (f : DB → DB) (t : Nat) :
    stepOp .commitTx ⟨⟨com, some f⟩, t, none⟩ = (.ok (), ⟨⟨f com, none⟩, t + 1, none⟩) := rfl

theorem stepOp_rollback (com : DB) (f : DB → DB) (t : Nat) :
    stepOp .rollbackTx ⟨⟨com, some f⟩, t, none⟩ = (.ok (), ⟨⟨com, none⟩, t + 1, none⟩) := rfl

theorem stepOp_selectScrim (com : DB) (f : DB → DB) (t sid : Nat) :
    stepOp (.selectScrim sid) ⟨⟨com, some f⟩, t, none⟩ =
      (.ok (findScrim (f com) sid), ⟨⟨com, some f⟩, t + 1, none⟩) := rfl

theorem stepOp_selectPlayers (com : DB) (f : DB → DB) (t sid : Nat) :
    stepOp (.selectPlayers sid) ⟨⟨com, some f⟩, t, none⟩ =
      (.ok (playersQuery (f com) sid), ⟨⟨com, some f⟩, t + 1, none⟩) := rfl

theorem stepOp_selectRating (com : DB) (f : DB → DB) (t pid : Nat) (lg : String) :
    stepOp (.selectRating pid lg) ⟨⟨com, some f⟩, t, none⟩ =
      (.ok (findRating (f com) pid lg), ⟨⟨com, some f⟩, t + 1, none⟩) := rfl

theorem stepOp_upsert (com : DB) (f : DB → DB) (t pid : Nat) (lg : String)
    (newR : ℤ) (w l : Nat) :
    stepOp (.upsertOp pid lg newR w l) ⟨⟨com, some f⟩, t, none⟩ =
      (.ok (),
       ⟨⟨com, some fun db => { f db with
          elo_ratings := upsertRating (f db).elo_ratings pid lg newR w l }⟩, t + 1, none⟩) := rfl

theorem stepOp_insertHistory (com : DB) (f : DB → DB) (t pid sid : Nat) (oldR newR : ℤ) :
    stepOp (.insertHistoryOp pid sid oldR newR) ⟨⟨com, some f⟩, t, none⟩ =
      (.ok (),
       ⟨⟨com, some fun db => { f db with
          elo_history := (f db).elo_history ++ [⟨pid, sid, oldR, newR⟩] }⟩, t + 1, none⟩) := rfl

theorem stepOp_setProcessed (com : DB) (f : DB → DB) (t sid : Nat) :
    stepOp (.setProcessedOp sid) ⟨⟨com, some f⟩, t, none⟩ =
      (.ok (), ⟨⟨com, some fun db => setProcessedDB (f db) sid⟩, t + 1, none⟩) := rfl

/-- Accumulator-generalised form of `ratingsMapOf`. -/
def ratingsMapAux (d : DB) (lg : String) (players : List ScrimPlayer)
    (acc : List (Nat × EloRating)) : List (Nat × EloRating) :=
  players.foldl
    (fun a p =>
      mapSet a p.player_id
        (match findRating d p.player_id lg with
         | some r => r
         | none => defaultRating p.player_id lg))
    acc

theorem ratingsMapOf_eq_aux (d : DB) (players : List ScrimPlayer) (lg : String) :
    ratingsMapOf d players lg = ratingsMapAux d lg players [] := rfl

/-- Running one statement wrapped as a program is just that statement. -/
theorem runP_query {α : Type} (op : QueryOp α) (s : St) :
    runP (query op) s = stepOp op s := by
  rcases h : stepOp op s with ⟨r, s1⟩
  cases r <;> simp [query, runP, h]

/-- Running the ratings-map loop under an open transaction with no injected
failure: pure selects that leave the client untouched. -/
theorem ratingsMap_fold_run (lg : String) (players : List ScrimPlayer)
    (acc : List (Nat × EloRating)) (com : DB) (f : DB → DB) (t : Nat) :
    runP (players.foldlM (ratingsStepProg lg) acc) ⟨⟨com, some f⟩, t, none⟩ =
      (.ok (ratingsMapAux (f com) lg players acc), ⟨⟨com, some f⟩, t + players.length, none⟩) := by
  induction players generalizing acc t with
  | nil => simp [List.foldlM_nil, ratingsMapAux, runP]
  | cons p rest ih =>
    have h1 : runP (ratingsStepProg lg acc p) ⟨⟨com, some f⟩, t, none⟩ =
        (.ok (mapSet acc p.player_id
          (match findRating (f com) p.player_id lg with
           | some r => r
           | none => defaultRating p.player_id lg)), ⟨⟨com, some f⟩, t + 1, none⟩) := by
      simp only [ratingsStepProg, bind_eq_bindP, runP_bindP, runP_query, stepOp_selectRating]
      cases findRating (f com) p.player_id lg <;> rfl
    have ht : t + 1 + rest.length = t + (p :: rest).length := by
      simp only [List.length_cons]; omega
    simp only [List.foldlM_cons, bind_eq_bindP, runP_bindP, h1, ih, ht]
    rfl

/-- Running one per-team update iteration: the upsert and the history
insert are appended to the open transaction's writes. -/
theorem teamStep_run (sidU : Nat) (lg : String) (ratings : List (Nat × EloRating))
    (oppAvg result : ℚ) (isWin : Bool) (p : ScrimPlayer)
    (com : DB) (f : DB → DB) (t : Nat) :
    runP (teamStepProg sidU lg ratings oppAvg result isWin () p) ⟨⟨com, some f⟩, t, none⟩ =
      (.ok (), ⟨⟨com, some fun db =>
        teamUpdateStep sidU lg ratings oppAvg result isWin (f db) p⟩, t + 1 + 1, none⟩) := by
  simp only [teamStepProg, updatePlayerRatingProg, bind_eq_bindP, runP_bindP, runP_query,
    stepOp_upsert, stepOp_insertHistory]
  rfl

/-- Running a whole per-team update loop under an open transaction with no
injected failure: the transaction's writes grow by the team's fold. -/
theorem teamUpd_fold_run (sidU : Nat) (lg : String) (ratings : List (Nat × EloRating))
    (oppAvg result : ℚ) (isWin : Bool) (team : List ScrimPlayer)
    (com : DB) (f : DB → DB) (t : Nat) :
    runP (team.foldlM (teamStepProg sidU lg ratings oppAvg result isWin) ())
        ⟨⟨com, some f⟩, t, none⟩ =
      (.ok (), ⟨⟨com, some fun db =>
        team.foldl (teamUpdateStep sidU lg ratings oppAvg result isWin) (f db)⟩,
        t + 2 * team.length, none⟩) := by
  induction team generalizing f t with
  | nil => simp [List.foldlM_nil, runP]
  | cons p rest ih =>
    have ht : t + 1 + 1 + 2 * rest.length = t + 2 * (p :: rest).length := by
      simp only [List.length_cons]; omega
    simp only [List.foldlM_cons, bind_eq_bindP, runP_bindP, teamStep_run, ih, ht,
      List.foldl_cons]

/-- The caller-observable pair (thrown error or return, committed store)
of a sequential, failure-free `processMatch` call, phrased from the pure
semantics. -/
noncomputable def processMatchSeq (d : DB) (scrimId : Nat) : Except String Outcome × DB :=
  match processMatchPure d scrimId with
  | .ok (o, d1) => (.ok o, d1)
  | .error e => (.error e, d)

/-- Bridge: the transactional interpreter with no injected failure computes
exactly the pure sequential semantics. -/
theorem processMatch_none_eq (d : DB) (sid : Nat) :
    processMatch none d sid = processMatchSeq d sid := by
  unfold processMatch processMatchSeq processMatchPure processMatchProg processMatchBody processMatchTeams
  simp only [bind_eq_bindP, runP_bindP, runP_query, stepOp_begin, stepOp_selectScrim, id_eq]
  cases hs : findScrim d sid with
  | none => rfl
  | some scrim =>
    by_cases hst : scrim.status = "completed"
    · simp only [hst, ne_eq, not_true_eq_false, if_false, ite_false]
      cases hep : scrim.elo_processed with
      | true =>
        simp only [if_true, ite_true, bind_eq_bindP, runP_bindP, runP_query, stepOp_rollback,
          if_pos rfl]
        rfl
      | false =>
        simp only [Bool.false_eq_true, if_false, ite_false]
        cases hw : scrim.winner_team with
        | none => rfl
        | some winner =>
          simp only [bind_eq_bindP, runP_bindP, runP_query, stepOp_selectPlayers, id_eq,
            ratingsMap_fold_run, ratingsMapOf_eq_aux]
          by_cases hteam :
              ((playersQuery d sid).filter fun p => p.team_id == some 1).length = 0 ∨
              ((playersQuery d sid).filter fun p => p.team_id == some 2).length = 0
          · simp only [hteam, if_true, ite_true, bind_eq_bindP, runP_bindP, runP_query,
              stepOp_rollback]
            rfl
          · simp only [hteam, if_false, ite_false, bind_eq_bindP, runP_bindP,
              teamUpd_fold_run, runP_query, stepOp_setProcessed, stepOp_commit, id_eq]
            rfl
    · simp only [hst, ne_eq, not_false_eq_true, if_true, ite_true]
      rfl

/-! Atomicity: every execution of the body that throws — wherever the
injected store failure lands — leaves the committed store untouched,
because all writes sit in the open transaction until COMMIT. -/

/-- Is this statement COMMIT? -/
def isCommit {α : Type} : QueryOp α → Bool
  | .commitTx => true
  | _ => false

/-- Is this statement ROLLBACK? -/
def isRollback {α : Type} : QueryOp α → Bool
  | .rollbackTx => true
  | _ => false

/-- Programs containing no transaction-closing statement. -/
inductive DataOnly : {α : Type} → Prog α → Prop where
  | pure {α : Type} (a : α) : DataOnly (.pure a)
  | fail {α : Type} (e : String) : DataOnly (.fail e : Prog α)
  | bind {α β : Type} (op : QueryOp β) (k : β → Prog α) :
      isCommit op = false → isRollback op = false →
      (∀ b, DataOnly (k b)) → DataOnly (.bind op k)

theorem dataOnly_query {α : Type} (op : QueryOp α) (hc : isCommit op = false)
    (hr : isRollback op = false) : DataOnly (query op) :=
  .bind op .pure hc hr fun b => .pure b

theorem dataOnly_bindP {α β : Type} {p : Prog α} {f : α → Prog β}
    (hp : DataOnly p) (hf : ∀ a, DataOnly (f a)) : DataOnly (p.bindP f) := by
  induction hp with
  | pure a => exact hf a
  | fail e => exact @DataOnly.fail β e
  | bind op k hc hr hk ih => exact .bind op _ hc hr fun b => ih b

theorem dataOnly_foldlM {α β : Type} (f : β → α → Prog β) (l : List α)
    (hf : ∀ b a, DataOnly (f b a)) : ∀ b, DataOnly (l.foldlM f b) := by
  induction l with
  | nil => intro b; exact .pure b
  | cons x xs ih =>
    intro b
    simp only [List.foldlM_cons, bind_eq_bindP]
    exact dataOnly_bindP (hf b x) fun b1 => ih b1

theorem dataOnly_ratingsStep (lg : String) (acc : List (Nat × EloRating)) (p : ScrimPlayer) :
    DataOnly (ratingsStepProg lg acc p) := by
  unfold ratingsStepProg
  exact dataOnly_bindP (dataOnly_query _ rfl rfl) fun r? => by
    cases r? <;> exact .pure _

theorem dataOnly_teamStep (sidU : Nat) (lg : String) (ratings : List (Nat × EloRating))
    (oppAvg result : ℚ) (isWin : Bool) (x : Unit) (p : ScrimPlayer) :
    DataOnly (teamStepProg sidU lg ratings oppAvg result isWin x p) := by
  unfold teamStepProg updatePlayerRatingProg
  exact dataOnly_bindP (dataOnly_query _ rfl rfl) fun _ => dataOnly_query _ rfl rfl

/-- A non-COMMIT, non-ROLLBACK statement executed inside an open
transaction either fails leaving the state alone (tick apart), or succeeds
keeping the transaction open and the committed store unchanged. -/
theorem stepOp_data {α : Type} (op : QueryOp α) (hc : isCommit op = false)
    (hr : isRollback op = false) (com : DB) (f : DB → DB) (t : Nat) (fa : Option Nat) :
    stepOp op ⟨⟨com, some f⟩, t, fa⟩ = (.error "query failed", ⟨⟨com, some f⟩, t + 1, fa⟩) ∨
    (∃ b g, stepOp op ⟨⟨com, some f⟩, t, fa⟩ = (.ok b, ⟨⟨com, some g⟩, t + 1, fa⟩)) := by
  by_cases hfa : fa = some t
  · left; simp [stepOp, hfa]
  · right
    cases op with
    | commitTx => simp [isCommit] at hc
    | rollbackTx => simp [isRollback] at hr
    | beginTx => exact ⟨(), id, by simp [stepOp, hfa]⟩
    | selectScrim sid =>
      exact ⟨findScrim (f com) sid, f, by simp [stepOp, hfa, QueryOp.res, QueryOp.wr, Client.view]⟩
    | selectPlayers sid =>
      exact ⟨playersQuery (f com) sid, f, by simp [stepOp, hfa, QueryOp.res, QueryOp.wr, Client.view]⟩
    | selectRating pid lg =>
      exact ⟨findRating (f com) pid lg, f, by simp [stepOp, hfa, QueryOp.res, QueryOp.wr, Client.view]⟩
    | upsertOp pid lg newR w l =>
      exact ⟨(), fun db => { f db with
        elo_ratings := upsertRating (f db).elo_ratings pid lg newR w l },
        by simp [stepOp, hfa, QueryOp.res, QueryOp.wr, Client.view]⟩
    | insertHistoryOp pid sid oldR newR =>
      exact ⟨(), fun db => { f db with
        elo_history := (f db).elo_history ++ [⟨pid, sid, oldR, newR⟩] },
        by simp [stepOp, hfa, QueryOp.res, QueryOp.wr, Client.view]⟩
    | setProcessedOp sid =>
      exact ⟨(), fun db => setProcessedDB (f db) sid,
        by simp [stepOp, hfa, QueryOp.res, QueryOp.wr, Client.view]⟩

/-- Running a `DataOnly` program inside an open transaction preserves the
committed store, keeps the transaction open, and preserves the failure
plan — whether it errors or succeeds. -/
theorem dataOnly_run {α : Type} {p : Prog α} (hp : DataOnly p) :
    ∀ (com : DB) (f : DB → DB) (t : Nat) (fa : Option Nat),
      (∃ e g t1, runP p ⟨⟨com, some f⟩, t, fa⟩ = (.error e, ⟨⟨com, some g⟩, t1, fa⟩)) ∨
      (∃ a g t1, runP p ⟨⟨com, some f⟩, t, fa⟩ = (.ok a, ⟨⟨com, some g⟩, t1, fa⟩)) := by
  induction hp with
  | pure a => intro com f t fa; right; exact ⟨a, f, t, rfl⟩
  | fail e => intro com f t fa; left; exact ⟨e, f, t, rfl⟩
  | bind op k hc hr hk ih =>
    intro com f t fa
    rcases stepOp_data op hc hr com f t fa with hstep | ⟨b, g, hstep⟩
    · left; exact ⟨"query failed", f, t + 1, by simp [runP, hstep]⟩
    · rcases ih b com g (t + 1) fa with ⟨e, g1, t1, h⟩ | ⟨a, g1, t1, h⟩
      · left; exact ⟨e, g1, t1, by simp [runP, hstep, h]⟩
      · right; exact ⟨a, g1, t1, by simp [runP, hstep, h]⟩

/-- A program is error-safe when any thrown run from an open transaction
leaves the committed store as it was. -/
def SafeOpen (p : Prog Outcome) : Prop :=
  ∀ (com : DB) (f : DB → DB) (t : Nat) (fa : Option Nat) (e : String) (s1 : St),
    runP p ⟨⟨com, some f⟩, t, fa⟩ = (.error e, s1) → s1.client.committed = com

theorem safeOpen_fail (e0 : String) : SafeOpen (.fail e0) := by
  intro com f t fa e s1 h
  simp only [runP] at h
  exact (congrArg (fun q => q.2.client.committed) h.symm).trans rfl

theorem safeOpen_pure (a : Outcome) : SafeOpen (.pure a) := by
  intro com f t fa e s1 h
  simp [runP] at h

theorem safeOpen_bindP_data {α : Type} {p : Prog α} {f : α → Prog Outcome}
    (hp : DataOnly p) (hf : ∀ a, SafeOpen (f a)) : SafeOpen (p.bindP f) := by
  intro com g t fa e s1 h
  rw [runP_bindP] at h
  rcases dataOnly_run hp com g t fa with ⟨e0, g1, t1, hrun⟩ | ⟨a, g1, t1, hrun⟩
  · rw [hrun] at h
    cases h
    rfl
  · rw [hrun] at h
    exact hf a com g1 t1 fa e s1 h

theorem safeOpen_rollback_pure (a : Outcome) :
    SafeOpen ((query .rollbackTx).bindP fun _ => Prog.pure a) := by
  intro com f t fa e s1 h
  rw [runP_bindP, runP_query] at h
  by_cases hfa : fa = some t
  · simp [stepOp, hfa] at h
    rw [← h.2]
  · simp [stepOp, hfa, runP] at h

theorem safeOpen_commit_pure (a : Outcome) :
    SafeOpen ((query .commitTx).bindP fun _ => Prog.pure a) := by
  intro com f t fa e s1 h
  rw [runP_bindP, runP_query] at h
  by_cases hfa : fa = some t
  · simp [stepOp, hfa] at h
    rw [← h.2]
  · simp [stepOp, hfa, runP] at h

theorem safeOpen_processMatchTeams (scrim : Scrim) (scrimId winner : Nat)
    (players : List ScrimPlayer) (ratings : List (Nat × EloRating)) :
    SafeOpen (processMatchTeams scrim scrimId winner players ratings) := by
  unfold processMatchTeams
  by_cases hteam : (players.filter fun p => p.team_id == some 1).length = 0 ∨
      (players.filter fun p => p.team_id == some 2).length = 0
  · simp only [hteam, if_true, ite_true, bind_eq_bindP, pure_eq_pureP]
    exact safeOpen_rollback_pure _
  · simp only [hteam, if_false, ite_false, bind_eq_bindP, pure_eq_pureP]
    apply safeOpen_bindP_data
      (dataOnly_foldlM _ _ (fun b a => dataOnly_teamStep _ _ _ _ _ _ b a) ())
    intro _
    apply safeOpen_bindP_data
      (dataOnly_foldlM _ _ (fun b a => dataOnly_teamStep _ _ _ _ _ _ b a) ())
    intro _
    apply safeOpen_bindP_data (dataOnly_query (.setProcessedOp scrimId) rfl rfl)
    intro _
    exact safeOpen_commit_pure _

theorem safeOpen_processMatchBody (scrimId : Nat) (scrim? : Option Scrim) :
    SafeOpen (processMatchBody scrimId scrim?) := by
  unfold processMatchBody
  cases scrim? with
  | none => exact safeOpen_fail _
  | some scrim =>
    by_cases hst : scrim.status = "completed"
    · simp only [hst, ne_eq, not_true_eq_false, if_false, ite_false]
      cases hep : scrim.elo_processed with
      | true =>
        simp only [if_pos rfl, bind_eq_bindP, pure_eq_pureP]
        exact safeOpen_rollback_pure _
      | false =>
        simp only [Bool.false_eq_true, if_false, ite_false]
        cases scrim.winner_team with
        | none => exact safeOpen_fail _
        | some winner =>
          simp only [bind_eq_bindP]
          apply safeOpen_bindP_data (dataOnly_query (.selectPlayers scrimId) rfl rfl)
          intro players
          apply safeOpen_bindP_data
            (dataOnly_foldlM _ _ (fun b a => dataOnly_ratingsStep scrim.league b a) [])
          intro ratings
          exact safeOpen_processMatchTeams scrim scrimId winner players ratings
    · simp only [hst, ne_eq, not_false_eq_true, if_true, ite_true]
      exact safeOpen_fail _

/-- Any thrown run of the whole body leaves the committed store unchanged. -/
theorem processMatchProg_err_committed (sid : Nat) (d : DB) (fa : Option Nat)
    (e : String) (s1 : St)
    (h : runP (processMatchProg sid) ⟨⟨d, none⟩, 0, fa⟩ = (.error e, s1)) :
    s1.client.committed = d := by
  unfold processMatchProg at h
  simp only [bind_eq_bindP, runP_bindP, runP_query] at h
  by_cases hfa : fa = some 0
  · have hb : stepOp .beginTx ⟨⟨d, none⟩, 0, fa⟩ =
        (.error "query failed", ⟨⟨d, none⟩, 1, fa⟩) := by simp [stepOp, hfa]
    rw [hb] at h
    dsimp only at h
    cases h
    rfl
  · have hb : stepOp .beginTx ⟨⟨d, none⟩, 0, fa⟩ =
        (.ok (), ⟨⟨d, some id⟩, 1, fa⟩) := by simp [stepOp, hfa]
    rw [hb] at h
    dsimp only at h
    refine safeOpen_bindP_data (dataOnly_query (.selectScrim sid) rfl rfl)
      (fun scrim? => safeOpen_processMatchBody sid scrim?) d id 1 fa e s1 ?_
    rw [runP_bindP, runP_query]
    exact h

/-- A statement that succeeds behaves the same with no failure injected. -/
theorem stepOp_ok_failNone {α : Type} (op : QueryOp α) (c : Client) (t : Nat)
    (fa : Option Nat) (b : α) (s' : St)
    (h : stepOp op ⟨c, t, fa⟩ = (.ok b, s')) :
    s' = ⟨s'.client, t + 1, fa⟩ ∧ stepOp op ⟨c, t, none⟩ = (.ok b, ⟨s'.client, t + 1, none⟩) := by
  by_cases hfa : fa = some t
  · simp [stepOp, hfa] at h
  · cases op <;> cases hc : c.txn <;>
      simp only [stepOp, hfa, hc, if_neg, reduceCtorEq, ite_false] at h ⊢ <;>
      · obtain ⟨hb, hs⟩ := Prod.mk.injEq .. ▸ h
        subst hs
        simp [← hb]

/-- A run that succeeds behaves the same with no failure injected. -/
theorem runP_ok_failNone {α : Type} (p : Prog α) :
    ∀ (c : Client) (t : Nat) (fa : Option Nat) (a : α) (s1 : St),
      runP p ⟨c, t, fa⟩ = (.ok a, s1) →
      runP p ⟨c, t, none⟩ = (.ok a, ⟨s1.client, s1.tick, none⟩) := by
  induction p with
  | pure a0 =>
    intro c t fa a s1 h
    simp only [runP, Prod.mk.injEq] at h ⊢
    obtain ⟨h1, h2⟩ := h
    subst h2
    exact ⟨h1, rfl⟩
  | fail e =>
    intro c t fa a s1 h
    simp [runP] at h
  | bind op k ih =>
    intro c t fa a s1 h
    simp only [runP] at h ⊢
    rcases hstep : stepOp op ⟨c, t, fa⟩ with ⟨r, s'⟩
    rw [hstep] at h
    cases r with
    | error e => simp at h
    | ok b =>
      dsimp only at h
      obtain ⟨hs', hstep0⟩ := stepOp_ok_failNone op c t fa b s' hstep
      rw [hstep0]
      dsimp only
      exact ih b s'.client (t + 1) fa a s1 (by rw [← hs']; exact h)

/-- Either an injected failure rolls the whole call back to the pre-call
store, or the call behaves exactly as the failure-free run. -/
theorem processMatch_cases (fa : Option Nat) (d : DB) (sid : Nat) :
    (processMatch fa d sid).2 = d ∨ processMatch fa d sid = processMatch none d sid := by
  unfold processMatch
  rcases hrun : runP (processMatchProg sid) ⟨⟨d, none⟩, 0, fa⟩ with ⟨r, s⟩
  cases r with
  | error e =>
    left
    exact processMatchProg_err_committed sid d fa e s hrun
  | ok o =>
    right
    rw [runP_ok_failNone (processMatchProg sid) ⟨d, none⟩ 0 fa o s hrun]

/-! Lemmas about the in-memory ratings map and the rating-row upsert. -/

theorem mapGet_mapSet_self (m : List (Nat × EloRating)) (k : Nat) (v : EloRating) :
    mapGet (mapSet m k v) k = some v := by
  induction m with
  | nil => simp [mapSet, mapGet]
  | cons q rest ih =>
    by_cases hq : q.1 = k
    · simp [mapSet, mapGet, hq]
    · have hq' : (q.1 == k) = false := by simp [hq]
      by_cases hany : rest.any fun q2 => q2.1 == k
      · simp only [mapSet, List.any_cons, hq', Bool.false_or, hany, if_true, ite_true,
          List.map_cons, if_neg hq, mapGet, List.find?_cons, hq']
        have := ih
        simp only [mapSet, hany, if_true, ite_true, mapGet] at this
        exact this
      · simp only [mapSet, List.any_cons, hq', Bool.false_or, hany, Bool.false_eq_true,
          if_false, ite_false, List.cons_append, mapGet, List.find?_cons, hq']
        have := ih
        simp only [mapSet, hany, Bool.false_eq_true, if_false, ite_false, mapGet] at this
        exact this

theorem mapGet_mapSet_other (m : List (Nat × EloRating)) (k k' : Nat) (v : EloRating)
    (hk : k' ≠ k) : mapGet (mapSet m k v) k' = mapGet m k' := by
  by_cases hany : m.any fun q => q.1 == k
  · simp only [mapSet, hany, if_true, ite_true, mapGet, List.find?_map]
    have hpred : ((fun q : Nat × EloRating => q.1 == k') ∘ fun q =>
        if q.1 = k then (k, v) else q) = fun q : Nat × EloRating => q.1 == k' := by
      funext q
      by_cases hq : q.1 = k <;> simp [hq]
    rw [hpred]
    cases hf : List.find? (fun q : Nat × EloRating => q.1 == k') m with
    | none => rfl
    | some q =>
      have hq' : q.1 = k' := by
        have := List.find?_some hf
        simpa using this
      have : ¬q.1 = k := by rw [hq']; exact hk
      simp [Option.map, this]
  · simp only [mapSet, hany, Bool.false_eq_true, if_false, ite_false, mapGet,
      List.find?_append]
    have h2 : (List.find? (fun q : Nat × EloRating => q.1 == k') [(k, v)]) = none := by
      simp [Ne.symm hk]
    rw [h2]
    cases List.find? (fun q : Nat × EloRating => q.1 == k') m <;> rfl

/-- The pre-match record processMatch uses for a participant. -/
def curOf (ratings : List (Nat × EloRating)) (lg : String) (p : ScrimPlayer) : EloRating :=
  (mapGet ratings p.player_id).getD (defaultRating p.player_id lg)

/-- The new rating processMatch computes for a participant. -/
noncomputable def newRatingOf (ratings : List (Nat × EloRating)) (lg : String)
    (oppAvg result : ℚ) (p : ScrimPlayer) : ℤ :=
  calculateNewRating ((curOf ratings lg p).rating : ℚ) oppAvg result

theorem teamUpdateStep_eq (scrimId : Nat) (lg : String) (ratings : List (Nat × EloRating))
    (oppAvg result : ℚ) (isWin : Bool) (d : DB) (p : ScrimPlayer) :
    teamUpdateStep scrimId lg ratings oppAvg result isWin d p =
      applyUpdatePlayerRating d p.player_id scrimId lg (curOf ratings lg p)
        (newRatingOf ratings lg oppAvg result p) isWin := rfl

/-- Ratings-map content: every participant is mapped to their stored row,
or to the synthesized default when none exists. -/
theorem mapGet_ratingsMapAux (d : DB) (lg : String) (players : List ScrimPlayer) (pid : Nat) :
    ∀ acc, (pid ∈ players.map fun p => p.player_id) ∨
        mapGet acc pid = some ((findRating d pid lg).getD (defaultRating pid lg)) →
      mapGet (ratingsMapAux d lg players acc) pid =
        some ((findRating d pid lg).getD (defaultRating pid lg)) := by
  induction players with
  | nil =>
    intro acc h
    rcases h with h | h
    · simp at h
    · exact h
  | cons p0 rest ih =>
    intro acc h
    show mapGet (ratingsMapAux d lg rest (mapSet acc p0.player_id _)) pid = _
    by_cases hpid : pid = p0.player_id
    · apply ih
      right
      subst hpid
      rw [mapGet_mapSet_self]
      cases hf : findRating d p0.player_id lg <;> rfl
    · apply ih
      rcases h with h | h
      · simp only [List.map_cons, List.mem_cons] at h
        rcases h with h | h
        · exact absurd h hpid
        · left; simpa using h
      · right
        rw [mapGet_mapSet_other _ _ _ _ hpid]
        exact h

theorem mapGet_ratingsMapOf (d : DB) (players : List ScrimPlayer) (lg : String) (pid : Nat)
    (h : pid ∈ players.map fun p => p.player_id) :
    mapGet (ratingsMapOf d players lg) pid =
      some ((findRating d pid lg).getD (defaultRating pid lg)) := by
  rw [ratingsMapOf_eq_aux]
  exact mapGet_ratingsMapAux d lg players pid [] (Or.inl h)

/-! Effect of the upsert on rating-row lookups. -/

theorem findRating_upsert_self (rs : List EloRating) (pid : Nat) (lg : String)
    (newR : ℤ) (w l : Nat) :
    List.find? (fun r => r.player_id == pid && r.league == lg) (upsertRating rs pid lg newR w l) =
      some (match List.find? (fun r => r.player_id == pid && r.league == lg) rs with
            | some r => { r with rating := newR, wins := r.wins + w, losses := r.losses + l }
            | none => ⟨pid, lg, newR, w, l⟩) := by
  have hpred : ((fun r : EloRating => r.player_id == pid && r.league == lg) ∘ fun r =>
      if r.player_id = pid ∧ r.league = lg then
        { r with rating := newR, wins := r.wins + w, losses := r.losses + l }
      else r) = fun r : EloRating => r.player_id == pid && r.league == lg := by
    funext r
    by_cases hr : r.player_id = pid ∧ r.league = lg <;> simp [hr]
  by_cases hany : rs.any fun r => r.player_id == pid && r.league == lg
  · simp only [upsertRating, hany, if_true, ite_true, List.find?_map, hpred]
    rcases List.any_eq_true.mp hany with ⟨r0, hr0m, hr0⟩
    have hfind : (List.find? (fun r : EloRating => r.player_id == pid && r.league == lg) rs).isSome := by
      rw [List.find?_isSome]
      exact ⟨r0, hr0m, hr0⟩
    cases hf : List.find? (fun r : EloRating => r.player_id == pid && r.league == lg) rs with
    | none => rw [hf] at hfind; simp at hfind
    | some r1 =>
      have hr1 : r1.player_id = pid ∧ r1.league = lg := by
        have := List.find?_some hf
        simpa using this
      simp [Option.map, hr1]
  · simp only [upsertRating, hany, Bool.false_eq_true, if_false, ite_false, List.find?_append]
    have hnone : List.find? (fun r : EloRating => r.player_id == pid && r.league == lg) rs = none := by
      rw [List.find?_eq_none]
      intro x hx hpx
      exact hany (List.any_eq_true.mpr ⟨x, hx, hpx⟩)
    rw [hnone]
    simp

theorem findRating_upsert_other (rs : List EloRating) (pid : Nat) (lg : String)
    (newR : ℤ) (w l : Nat) (pid' : Nat) (lg' : String) (hne : ¬(pid = pid' ∧ lg = lg')) :
    List.find? (fun r => r.player_id == pid' && r.league == lg')
        (upsertRating rs pid lg newR w l) =
      List.find? (fun r => r.player_id == pid' && r.league == lg') rs := by
  have hpred : ((fun r : EloRating => r.player_id == pid' && r.league == lg') ∘ fun r =>
      if r.player_id = pid ∧ r.league = lg then
        { r with rating := newR, wins := r.wins + w, losses := r.losses + l }
      else r) = fun r : EloRating => r.player_id == pid' && r.league == lg' := by
    funext r
    by_cases hr : r.player_id = pid ∧ r.league = lg <;> simp [hr]
  by_cases hany : rs.any fun r => r.player_id == pid && r.league == lg
  · simp only [upsertRating, hany, if_true, ite_true, List.find?_map, hpred]
    cases hf : List.find? (fun r : EloRating => r.player_id == pid' && r.league == lg') rs with
    | none => rfl
    | some q =>
      have hq : q.player_id = pid' ∧ q.league = lg' := by
        have := List.find?_some hf
        simpa using this
      have hqne : ¬(q.player_id = pid ∧ q.league = lg) := by
        rintro ⟨h1, h2⟩
        exact hne ⟨by rw [← h1, hq.1], by rw [← h2, hq.2]⟩
      simp [Option.map, hqne]
  · simp only [upsertRating, hany, Bool.false_eq_true, if_false, ite_false, List.find?_append]
    have h2 : List.find? (fun r : EloRating => r.player_id == pid' && r.league == lg')
        ([⟨pid, lg, newR, w, l⟩] : List EloRating) = none := by
      simp only [List.find?_cons, List.find?_nil]
      have hb : (pid == pid' && lg == lg') = false := by
        cases hbb : (pid == pid' && lg == lg') with
        | false => rfl
        | true =>
          rw [Bool.and_eq_true, beq_iff_eq, beq_iff_eq] at hbb
          exact absurd hbb hne
      rw [hb]
    rw [h2]
    cases List.find? (fun r : EloRating => r.player_id == pid' && r.league == lg') rs <;> rfl

/-! How the per-team update fold transforms the database. -/

theorem applyUpdate_scrims (d : DB) (pid scrimId : Nat) (lg : String)
    (cur : EloRating) (newR : ℤ) (isWin : Bool) :
    (applyUpdatePlayerRating d pid scrimId lg cur newR isWin).scrims = d.scrims := rfl

theorem foldl_team_scrims (scrimId : Nat) (lg : String) (ratings : List (Nat × EloRating))
    (oppAvg result : ℚ) (isWin : Bool) (team : List ScrimPlayer) (d : DB) :
    (team.foldl (teamUpdateStep scrimId lg ratings oppAvg result isWin) d).scrims = d.scrims := by
  induction team generalizing d with
  | nil => rfl
  | cons p rest ih => rw [List.foldl_cons, ih, teamUpdateStep_eq, applyUpdate_scrims]

/-- The history entry the update loop appends for a participant. -/
noncomputable def historyEntryOf (ratings : List (Nat × EloRating)) (lg : String)
    (scrimId : Nat) (oppAvg result : ℚ) (p : ScrimPlayer) : HistoryEntry :=
  ⟨p.player_id, scrimId, (curOf ratings lg p).rating, newRatingOf ratings lg oppAvg result p⟩

theorem foldl_team_history (scrimId : Nat) (lg : String) (ratings : List (Nat × EloRating))
    (oppAvg result : ℚ) (isWin : Bool) (team : List ScrimPlayer) (d : DB) :
    (team.foldl (teamUpdateStep scrimId lg ratings oppAvg result isWin) d).elo_history =
      d.elo_history ++ team.map (historyEntryOf ratings lg scrimId oppAvg result) := by
  induction team generalizing d with
  | nil => simp
  | cons p rest ih =>
    rw [List.foldl_cons, ih, teamUpdateStep_eq]
    show (d.elo_history ++ [historyEntryOf ratings lg scrimId oppAvg result p]) ++ _ = _
    rw [List.append_assoc]
    rfl

theorem findRating_applyUpdate (d : DB) (pid0 scrimId : Nat) (lg0 : String)
    (cur : EloRating) (newR : ℤ) (isWin : Bool) (pid : Nat) (lg : String) :
    findRating (applyUpdatePlayerRating d pid0 scrimId lg0 cur newR isWin) pid lg =
      List.find? (fun r => r.player_id == pid && r.league == lg)
        (upsertRating d.elo_ratings pid0 lg0 newR
          (if isWin then 1 else 0) (if isWin then 0 else 1)) := rfl

theorem foldl_team_ratings_notmem (scrimId : Nat) (lg : String)
    (ratings : List (Nat × EloRating)) (oppAvg result : ℚ) (isWin : Bool)
    (team : List ScrimPlayer) (d : DB) (pid : Nat) (lg' : String)
    (h : pid ∉ team.map fun p => p.player_id) :
    findRating (team.foldl (teamUpdateStep scrimId lg ratings oppAvg result isWin) d) pid lg' =
      findRating d pid lg' := by
  induction team generalizing d with
  | nil => rfl
  | cons p rest ih =>
    simp only [List.map_cons, List.mem_cons, not_or] at h
    rw [List.foldl_cons, ih _ h.2, teamUpdateStep_eq, findRating_applyUpdate,
      findRating_upsert_other]
    · rfl
    · rintro ⟨h1, h2⟩
      exact h.1 h1.symm

theorem foldl_team_ratings_mem (scrimId : Nat) (lg : String)
    (ratings : List (Nat × EloRating)) (oppAvg result : ℚ) (isWin : Bool)
    (team : List ScrimPlayer) (d : DB) (p : ScrimPlayer)
    (hnd : (team.map fun q => q.player_id).Nodup) (hp : p ∈ team) :
    findRating (team.foldl (teamUpdateStep scrimId lg ratings oppAvg result isWin) d)
        p.player_id lg =
      some (match findRating d p.player_id lg with
            | some r =>
                { r with
                  rating := newRatingOf ratings lg oppAvg result p
                  wins := r.wins + (if isWin then 1 else 0)
                  losses := r.losses + (if isWin then 0 else 1) }
            | none => ⟨p.player_id, lg, newRatingOf ratings lg oppAvg result p,
                if isWin then 1 else 0, if isWin then 0 else 1⟩) := by
  induction team generalizing d with
  | nil => cases hp
  | cons q rest ih =>
    simp only [List.map_cons, List.nodup_cons] at hnd
    rcases List.mem_cons.mp hp with hpq | hprest
    · subst hpq
      rw [List.foldl_cons, foldl_team_ratings_notmem _ _ _ _ _ _ _ _ _ _ hnd.1,
        teamUpdateStep_eq, findRating_applyUpdate, findRating_upsert_self]
      rfl
    · have hne : q.player_id ≠ p.player_id := by
        intro hcon
        exact hnd.1 (hcon ▸ (List.mem_map.mpr ⟨p, hprest, rfl⟩))
      rw [List.foldl_cons, ih _ hnd.2 hprest, teamUpdateStep_eq, findRating_applyUpdate,
        findRating_upsert_other]
      · rfl
      · rintro ⟨h1, h2⟩
        exact hne h1

/-- The database a successful processing run commits: both team update
loops over the pre-match ratings map, then the processed-flag write. -/
noncomputable def processedDB (d : DB) (sid : Nat) (scrim : Scrim) (winner : Nat) : DB :=
  let players := playersQuery d sid
  let ratings := ratingsMapOf d players scrim.league
  let team1 := players.filter fun p => p.team_id == some 1
  let team2 := players.filter fun p => p.team_id == some 2
  let d1 := team1.foldl (teamUpdateStep scrim.id scrim.league ratings
    (teamAvgOf ratings scrim.league team2) (if winner = 1 then 1 else 0) (winner = 1)) d
  let d2 := team2.foldl (teamUpdateStep scrim.id scrim.league ratings
    (teamAvgOf ratings scrim.league team1) (if winner = 2 then 1 else 0) (winner = 2)) d1
  setProcessedDB d2 sid

/-- Success-path characterization of a sequential processMatch run. -/
theorem processMatchPure_processed (d : DB) (sid : Nat) (scrim : Scrim) (winner : Nat)
    (hfind : findScrim d sid = some scrim) (hst : scrim.status = "completed")
    (hep : scrim.elo_processed = false) (hw : scrim.winner_team = some winner)
    (hT : ¬(((playersQuery d sid).filter fun p => p.team_id == some 1).length = 0 ∨
        ((playersQuery d sid).filter fun p => p.team_id == some 2).length = 0)) :
    processMatchPure d sid = .ok (.Processed, processedDB d sid scrim winner) := by
  unfold processMatchPure processedDB
  rw [hfind]
  simp only [hst, ne_eq, not_true_eq_false, if_false, ite_false, hep, Bool.false_eq_true, hw,
    hT]

/-- Early-return characterization on an already processed scrim. -/
theorem processMatchPure_already (d : DB) (sid : Nat) (scrim : Scrim)
    (hfind : findScrim d sid = some scrim) (hst : scrim.status = "completed")
    (hep : scrim.elo_processed = true) :
    processMatchPure d sid = .ok (.AlreadyProcessed, d) := by
  unfold processMatchPure
  rw [hfind]
  simp [hst, hep]

/-- Skip-path characterization when a team partition is empty. -/
theorem processMatchPure_skipped (d : DB) (sid : Nat) (scrim : Scrim) (winner : Nat)
    (hfind : findScrim d sid = some scrim) (hst : scrim.status = "completed")
    (hep : scrim.elo_processed = false) (hw : scrim.winner_team = some winner)
    (hT : ((playersQuery d sid).filter fun p => p.team_id == some 1).length = 0 ∨
        ((playersQuery d sid).filter fun p => p.team_id == some 2).length = 0) :
    processMatchPure d sid = .ok (.SkippedIncompleteTeams, d) := by
  unfold processMatchPure
  rw [hfind]
  simp only [hst, ne_eq, not_true_eq_false, if_false, ite_false, hep, Bool.false_eq_true, hw]
  rw [if_pos hT]

theorem findScrim_setProcessedDB (d0 : DB) (sid : Nat) :
    findScrim (setProcessedDB d0 sid) sid =
      (findScrim d0 sid).map fun s => { s with elo_processed := true } := by
  unfold findScrim setProcessedDB
  simp only [List.find?_map]
  have hpred : ((fun s : Scrim => s.id == sid) ∘ fun s =>
      if s.id = sid then { s with elo_processed := true } else s) =
      fun s : Scrim => s.id == sid := by
    funext s
    by_cases h : s.id = sid <;> simp [h]
  rw [hpred]
  cases hf : List.find? (fun s : Scrim => s.id == sid) d0.scrims with
  | none => rfl
  | some s =>
    have hs : s.id = sid := by simpa using List.find?_some hf
    simp [Option.map, hs]

theorem processedDB_scrims (d : DB) (sid : Nat) (scrim : Scrim) (winner : Nat) :
    (processedDB d sid scrim winner).scrims = (setProcessedDB d sid).scrims := by
  unfold processedDB setProcessedDB
  simp only [foldl_team_scrims]

theorem findScrim_processedDB (d : DB) (sid : Nat) (scrim : Scrim) (winner : Nat) :
    findScrim (processedDB d sid scrim winner) sid =
      (findScrim d sid).map fun s => { s with elo_processed := true } := by
  have h1 : findScrim (processedDB d sid scrim winner) sid =
      findScrim (setProcessedDB d sid) sid := by
    unfold findScrim
    rw [processedDB_scrims]
  rw [h1, findScrim_setProcessedDB]

/-- A second sequential call right after a successful processing run is an
`AlreadyProcessed` no-op. -/
theorem processMatchPure_second (d : DB) (sid : Nat) (scrim : Scrim) (winner : Nat)
    (hfind : findScrim d sid = some scrim) (hst : scrim.status = "completed") :
    processMatchPure (processedDB d sid scrim winner) sid =
      .ok (.AlreadyProcessed, processedDB d sid scrim winner) := by
  apply processMatchPure_already _ _ { scrim with elo_processed := true }
  · rw [findScrim_processedDB, hfind]
    rfl
  · exact hst
  · rfl

/-- Participant rows assigned to team 1. -/
def team1Of (d : DB) (sid : Nat) : List ScrimPlayer :=
  (playersQuery d sid).filter fun p => p.team_id == some 1

/-- Participant rows assigned to team 2. -/
def team2Of (d : DB) (sid : Nat) : List ScrimPlayer :=
  (playersQuery d sid).filter fun p => p.team_id == some 2

/-- The pre-match ratings map of a run. -/
def ratingsOf (d : DB) (sid : Nat) (lg : String) : List (Nat × EloRating) :=
  ratingsMapOf d (playersQuery d sid) lg

/-- Pre-match average rating of team 1. -/
noncomputable def team1AvgOf (d : DB) (sid : Nat) (lg : String) : ℚ :=
  teamAvgOf (ratingsOf d sid lg) lg (team1Of d sid)

/-- Pre-match average rating of team 2. -/
noncomputable def team2AvgOf (d : DB) (sid : Nat) (lg : String) : ℚ :=
  teamAvgOf (ratingsOf d sid lg) lg (team2Of d sid)

/-- The rating row a participant ends up with after one processing run:
rating overwritten with the Elo update of their pre-match rating (1000
when they had no row), win/loss counter incremented once. -/
noncomputable def postRecord (d : DB) (lg : String) (oppAvg result : ℚ) (isWin : Bool)
    (pid : Nat) : EloRating :=
  match findRating d pid lg with
  | some r =>
      { r with
        rating := calculateNewRating (r.rating : ℚ) oppAvg result
        wins := r.wins + (if isWin then 1 else 0)
        losses := r.losses + (if isWin then 0 else 1) }
  | none => ⟨pid, lg, calculateNewRating ((1000 : ℤ) : ℚ) oppAvg result,
      if isWin then 1 else 0, if isWin then 0 else 1⟩

theorem processedDB_history (d : DB) (sid : Nat) (scrim : Scrim) (winner : Nat) :
    (processedDB d sid scrim winner).elo_history =
      d.elo_history
        ++ (team1Of d sid).map (historyEntryOf (ratingsOf d sid scrim.league) scrim.league
            scrim.id (team2AvgOf d sid scrim.league) (if winner = 1 then 1 else 0))
        ++ (team2Of d sid).map (historyEntryOf (ratingsOf d sid scrim.league) scrim.league
            scrim.id (team1AvgOf d sid scrim.league) (if winner = 2 then 1 else 0)) := by
  unfold processedDB
  show (List.foldl _ (List.foldl _ d _) _).elo_history = _
  rw [foldl_team_history, foldl_team_history]
  rfl

theorem processedDB_ratings (d : DB) (sid : Nat) (scrim : Scrim) (winner : Nat)
    (pid : Nat) (lg' : String) :
    findRating (processedDB d sid scrim winner) pid lg' =
      findRating ((team2Of d sid).foldl
        (teamUpdateStep scrim.id scrim.league (ratingsOf d sid scrim.league)
          (team1AvgOf d sid scrim.league) (if winner = 2 then 1 else 0) (winner = 2))
        ((team1Of d sid).foldl
          (teamUpdateStep scrim.id scrim.league (ratingsOf d sid scrim.league)
            (team2AvgOf d sid scrim.league) (if winner = 1 then 1 else 0) (winner = 1)) d))
        pid lg' := rfl

/-- Membership in a team partition embeds into the participants list. -/
theorem team1Of_sub (d : DB) (sid : Nat) (p : ScrimPlayer) (hp : p ∈ team1Of d sid) :
    p ∈ playersQuery d sid := List.mem_of_mem_filter hp

theorem team2Of_sub (d : DB) (sid : Nat) (p : ScrimPlayer) (hp : p ∈ team2Of d sid) :
    p ∈ playersQuery d sid := List.mem_of_mem_filter hp

/-- With distinct participant ids the two team partitions are disjoint. -/
theorem team_pid_disjoint (d : DB) (sid : Nat)
    (hnd : ((playersQuery d sid).map fun p => p.player_id).Nodup)
    (p : ScrimPlayer) (hp : p ∈ team2Of d sid) :
    p.player_id ∉ (team1Of d sid).map fun q => q.player_id := by
  intro hmem
  rcases List.mem_map.mp hmem with ⟨q, hq1, hq2⟩
  have hqp : q ∈ playersQuery d sid := team1Of_sub d sid q hq1
  have hpp : p ∈ playersQuery d sid := team2Of_sub d sid p hp
  have hq1' : q.team_id = some 1 := by simpa using List.of_mem_filter hq1
  have hp2' : p.team_id = some 2 := by simpa using List.of_mem_filter hp
  have heq : q = p := List.inj_on_of_nodup_map hnd hqp hpp hq2
  rw [heq, hp2'] at hq1'
  cases hq1'

theorem team_pid_disjoint' (d : DB) (sid : Nat)
    (hnd : ((playersQuery d sid).map fun p => p.player_id).Nodup)
    (p : ScrimPlayer) (hp : p ∈ team1Of d sid) :
    p.player_id ∉ (team2Of d sid).map fun q => q.player_id := by
  intro hmem
  rcases List.mem_map.mp hmem with ⟨q, hq2, hq2'⟩
  have hqp : q ∈ playersQuery d sid := team2Of_sub d sid q hq2
  have hpp : p ∈ playersQuery d sid := team1Of_sub d sid p hp
  have hq2t : q.team_id = some 2 := by simpa using List.of_mem_filter hq2
  have hp1t : p.team_id = some 1 := by simpa using List.of_mem_filter hp
  have heq : q = p := List.inj_on_of_nodup_map hnd hqp hpp hq2'
  rw [heq, hp1t] at hq2t
  cases hq2t

theorem team1Of_nodup (d : DB) (sid : Nat)
    (hnd : ((playersQuery d sid).map fun p => p.player_id).Nodup) :
    ((team1Of d sid).map fun p => p.player_id).Nodup :=
  ((List.filter_sublist _).map _).nodup hnd

theorem team2Of_nodup (d : DB) (sid : Nat)
    (hnd : ((playersQuery d sid).map fun p => p.player_id).Nodup) :
    ((team2Of d sid).map fun p => p.player_id).Nodup :=
  ((List.filter_sublist _).map _).nodup hnd

/-- Rating row of a team-1 participant after a successful processing run. -/
theorem processedDB_rating_team1 (d : DB) (sid : Nat) (scrim : Scrim) (winner : Nat)
    (hnd : ((playersQuery d sid).map fun p => p.player_id).Nodup)
    (p : ScrimPlayer) (hp : p ∈ team1Of d sid) :
    findRating (processedDB d sid scrim winner) p.player_id scrim.league =
      some (postRecord d scrim.league (team2AvgOf d sid scrim.league)
        (if winner = 1 then 1 else 0) (winner = 1) p.player_id) := by
  rw [processedDB_ratings,
    foldl_team_ratings_notmem _ _ _ _ _ _ _ _ _ _ (team_pid_disjoint' d sid hnd p hp),
    foldl_team_ratings_mem _ _ _ _ _ _ _ _ _ (team1Of_nodup d sid hnd) hp]
  have hmap : mapGet (ratingsOf d sid scrim.league) p.player_id =
      some ((findRating d p.player_id scrim.league).getD
        (defaultRating p.player_id scrim.league)) :=
    mapGet_ratingsMapOf _ _ _ _
      (List.mem_map.mpr ⟨p, team1Of_sub d sid p hp, rfl⟩)
  unfold newRatingOf curOf postRecord
  rw [hmap]
  cases hf : findRating d p.player_id scrim.league <;> simp [Option.getD, defaultRating]

/-- Rating row of a team-2 participant after a successful processing run. -/
theorem processedDB_rating_team2 (d : DB) (sid : Nat) (scrim : Scrim) (winner : Nat)
    (hnd : ((playersQuery d sid).map fun p => p.player_id).Nodup)
    (p : ScrimPlayer) (hp : p ∈ team2Of d sid) :
    findRating (processedDB d sid scrim winner) p.player_id scrim.league =
      some (postRecord d scrim.league (team1AvgOf d sid scrim.league)
        (if winner = 2 then 1 else 0) (winner = 2) p.player_id) := by
  rw [processedDB_ratings,
    foldl_team_ratings_mem _ _ _ _ _ _ _ _ _ (team2Of_nodup d sid hnd) hp,
    foldl_team_ratings_notmem _ _ _ _ _ _ _ _ _ _ (team_pid_disjoint d sid hnd p hp)]
  have hmap : mapGet (ratingsOf d sid scrim.league) p.player_id =
      some ((findRating d p.player_id scrim.league).getD
        (defaultRating p.player_id scrim.league)) :=
    mapGet_ratingsMapOf _ _ _ _
      (List.mem_map.mpr ⟨p, team2Of_sub d sid p hp, rfl⟩)
  unfold newRatingOf curOf postRecord
  rw [hmap]
  cases hf : findRating d p.player_id scrim.league <;> simp [Option.getD, defaultRating]

/-- Rating rows of players outside both partitions are untouched. -/
theorem processedDB_rating_other (d : DB) (sid : Nat) (scrim : Scrim) (winner : Nat)
    (pid : Nat) (lg' : String)
    (h1 : pid ∉ (team1Of d sid).map fun q => q.player_id)
    (h2 : pid ∉ (team2Of d sid).map fun q => q.player_id) :
    findRating (processedDB d sid scrim winner) pid lg' = findRating d pid lg' := by
  rw [processedDB_ratings,
    foldl_team_ratings_notmem _ _ _ _ _ _ _ _ _ _ h2,
    foldl_team_ratings_notmem _ _ _ _ _ _ _ _ _ _ h1]

theorem historyCount_processedDB (d : DB) (sid : Nat) (scrim : Scrim) (winner : Nat)
    (pid : Nat) (hsid : scrim.id = sid) :
    historyCount (processedDB d sid scrim winner) pid sid =
      historyCount d pid sid
        + ((team1Of d sid).filter fun q => q.player_id == pid).length
        + ((team2Of d sid).filter fun q => q.player_id == pid).length := by
  unfold historyCount
  rw [processedDB_history, List.filter_append, List.filter_append,
    List.length_append, List.length_append]
  have hfm : ∀ (team : List ScrimPlayer) (oppAvg result : ℚ),
      ((team.map (historyEntryOf (ratingsOf d sid scrim.league) scrim.league scrim.id
          oppAvg result)).filter fun h => h.player_id == pid && h.scrim_id == sid).length =
        (team.filter fun q => q.player_id == pid).length := by
    intro team oppAvg result
    rw [List.filter_map, List.length_map]
    have hcong : ((fun h : HistoryEntry => h.player_id == pid && h.scrim_id == sid) ∘
        historyEntryOf (ratingsOf d sid scrim.league) scrim.league scrim.id oppAvg result) =
        fun q : ScrimPlayer => q.player_id == pid := by
      funext q
      simp [historyEntryOf, hsid]
    rw [hcong]
  rw [hfm, hfm]

theorem filter_pid_length_one (team : List ScrimPlayer) (p : ScrimPlayer)
    (hnd : (team.map fun q => q.player_id).Nodup) (hp : p ∈ team) :
    (team.filter fun q => q.player_id == p.player_id).length = 1 := by
  induction team with
  | nil => cases hp
  | cons q rest ih =>
    simp only [List.map_cons, List.nodup_cons] at hnd
    rcases List.mem_cons.mp hp with hpq | hprest
    · subst hpq
      have hrest : rest.filter (fun q2 => q2.player_id == p.player_id) = [] := by
        rw [List.filter_eq_nil_iff]
        intro x hx hcon
        exact hnd.1 (List.mem_map.mpr ⟨x, hx, by simpa using hcon⟩)
      simp [List.filter_cons, hrest]
    · have hne : (q.player_id == p.player_id) = false := by
        have : q.player_id ≠ p.player_id := by
          intro hcon
          exact hnd.1 (hcon ▸ List.mem_map.mpr ⟨p, hprest, rfl⟩)
        simpa using this
      rw [List.filter_cons, hne]
      simp only [Bool.false_eq_true, if_false, ite_false]
      exact ih hnd.2 hprest

theorem filter_pid_length_zero (team : List ScrimPlayer) (pid : Nat)
    (h : pid ∉ team.map fun q => q.player_id) :
    (team.filter fun q => q.player_id == pid).length = 0 := by
  rw [List.length_eq_zero, List.filter_eq_nil_iff]
  intro x hx hcon
  exact h (List.mem_map.mpr ⟨x, hx, by simpa using hcon⟩)

/-- C2: processMatch is idempotent in sequence — on a completed,
unprocessed match with a declared winner and two non-empty teams, the
first call commits a `Processed` run and the second call is an
`AlreadyProcessed` no-op on the same state; afterwards every rated
participant has exactly one history entry for the match, and their rating
row is the Elo update of their pre-match row applied exactly once (rating
overwritten, win/loss counter incremented once). -/
theorem C2_processMatch_idempotent
    (d : DB) (sid : Nat) (scrim : Scrim) (winner : Nat)
    (hfind : findScrim d sid = some scrim)
    (hst : scrim.status = "completed") (hep : scrim.elo_processed = false)
    (hw : scrim.winner_team = some winner) (hsid : scrim.id = sid)
    (hnd : ((playersQuery d sid).map fun p => p.player_id).Nodup)
    (hh : ∀ p ∈ playersQuery d sid, historyCount d p.player_id sid = 0)
    (ht1 : team1Of d sid ≠ []) (ht2 : team2Of d sid ≠ []) :
    ∃ d1, processMatch none d sid = (.ok .Processed, d1) ∧
      processMatch none d1 sid = (.ok .AlreadyProcessed, d1) ∧
      (∀ p ∈ team1Of d sid,
        historyCount d1 p.player_id sid = 1 ∧
        findRating d1 p.player_id scrim.league =
          some (postRecord d scrim.league (team2AvgOf d sid scrim.league)
            (if winner = 1 then 1 else 0) (winner = 1) p.player_id)) ∧
      (∀ p ∈ team2Of d sid,
        historyCount d1 p.player_id sid = 1 ∧
        findRating d1 p.player_id scrim.league =
          some (postRecord d scrim.league (team1AvgOf d sid scrim.league)
            (if winner = 2 then 1 else 0) (winner = 2) p.player_id)) := by
  have hT : ¬(((playersQuery d sid).filter fun p => p.team_id == some 1).length = 0 ∨
      ((playersQuery d sid).filter fun p => p.team_id == some 2).length = 0) := by
    rintro (h | h)
    · exact ht1 (List.length_eq_zero.mp h)
    · exact ht2 (List.length_eq_zero.mp h)
  refine ⟨processedDB d sid scrim winner, ?_, ?_, ?_, ?_⟩
  · rw [processMatch_none_eq]
    unfold processMatchSeq
    rw [processMatchPure_processed d sid scrim winner hfind hst hep hw hT]
  · rw [processMatch_none_eq]
    unfold processMatchSeq
    rw [processMatchPure_second d sid scrim winner hfind hst]
  · intro p hp
    refine ⟨?_, processedDB_rating_team1 d sid scrim winner hnd p hp⟩
    rw [historyCount_processedDB d sid scrim winner _ hsid,
      hh p (team1Of_sub d sid p hp),
      filter_pid_length_one _ p (team1Of_nodup d sid hnd) hp,
      filter_pid_length_zero _ _ (team_pid_disjoint' d sid hnd p hp)]
  · intro p hp
    refine ⟨?_, processedDB_rating_team2 d sid scrim winner hnd p hp⟩
    rw [historyCount_processedDB d sid scrim winner _ hsid,
      hh p (team2Of_sub d sid p hp),
      filter_pid_length_one _ p (team2Of_nodup d sid hnd) hp,
      filter_pid_length_zero _ _ (team_pid_disjoint d sid hnd p hp)]

/-- Concrete two-player, one-league database used to instantiate the
general theorems: scrim 1 completed in league Academy, winner team 1,
players 10 (team 1) and 20 (team 2), no prior ratings or history. -/
def dW : DB :=
  ⟨[⟨1, "completed", "Academy", some 1, false⟩],
   [⟨1, 10⟩, ⟨1, 20⟩],
   [⟨1, 10, 1⟩, ⟨1, 20, 2⟩],
   [], []⟩

theorem C2_processMatch_idempotent_witness :
    ∃ d1, processMatch none dW 1 = (.ok .Processed, d1) ∧
      processMatch none d1 1 = (.ok .AlreadyProcessed, d1) ∧
      (∀ p ∈ team1Of dW 1,
        historyCount d1 p.player_id 1 = 1 ∧
        findRating d1 p.player_id "Academy" =
          some (postRecord dW "Academy" (team2AvgOf dW 1 "Academy") 1 true p.player_id)) ∧
      (∀ p ∈ team2Of dW 1,
        historyCount d1 p.player_id 1 = 1 ∧
        findRating d1 p.player_id "Academy" =
          some (postRecord dW "Academy" (team1AvgOf dW 1 "Academy") 0 false p.player_id)) :=
  C2_processMatch_idempotent dW 1 ⟨1, "completed", "Academy", some 1, false⟩ 1
    rfl rfl rfl rfl rfl (by decide) (by decide) (by decide) (by decide)

/-- Error characterization when the scrim status is not `completed`. -/
theorem processMatchPure_notCompleted (d : DB) (sid : Nat) (scrim : Scrim)
    (hfind : findScrim d sid = some scrim) (hst : scrim.status ≠ "completed") :
    processMatchPure d sid = .error "Scrim is not completed" := by
  unfold processMatchPure
  rw [hfind]
  simp [hst]

/-- Exhaustive outcome analysis of a sequential run: a no-op on the same
state, a thrown error, or a committed `processedDB`. -/
theorem processMatchPure_outcome_cases (d : DB) (sid : Nat) :
    processMatchPure d sid = .ok (.AlreadyProcessed, d) ∨
    processMatchPure d sid = .ok (.SkippedIncompleteTeams, d) ∨
    (∃ e, processMatchPure d sid = .error e) ∨
    (∃ scrim winner, findScrim d sid = some scrim ∧ scrim.status = "completed" ∧
      scrim.elo_processed = false ∧ scrim.winner_team = some winner ∧
      processMatchPure d sid = .ok (.Processed, processedDB d sid scrim winner)) := by
  cases hfind : findScrim d sid with
  | none =>
    right; right; left
    exact ⟨"Scrim not found", by unfold processMatchPure; rw [hfind]⟩
  | some scrim =>
    by_cases hst : scrim.status = "completed"
    · cases hep : scrim.elo_processed with
      | true => exact Or.inl (processMatchPure_already d sid scrim hfind hst hep)
      | false =>
        cases hw : scrim.winner_team with
        | none =>
          right; right; left
          refine ⟨"Scrim has no winner_team set", ?_⟩
          unfold processMatchPure
          rw [hfind]
          simp [hst, hep, hw]
        | some winner =>
          by_cases hT : ((playersQuery d sid).filter fun p => p.team_id == some 1).length = 0 ∨
              ((playersQuery d sid).filter fun p => p.team_id == some 2).length = 0
          · exact Or.inr (Or.inl (processMatchPure_skipped d sid scrim winner hfind hst hep hw hT))
          · exact Or.inr (Or.inr (Or.inr ⟨scrim, winner, rfl, hst, hep, hw,
              processMatchPure_processed d sid scrim winner hfind hst hep hw hT⟩))
    · right; right; left
      exact ⟨"Scrim is not completed", processMatchPure_notCompleted d sid scrim hfind hst⟩

/-- C7: a completed, unprocessed match with a declared winner but an empty
team partition is skipped, not an error: the call returns successfully on
the `SkippedIncompleteTeams` path with the database — rating rows, history
and the processed flag — unchanged, so the match stays eligible for retry. -/
theorem C7_skipped_incomplete_teams
    (d : DB) (sid : Nat) (scrim : Scrim) (winner : Nat)
    (hfind : findScrim d sid = some scrim)
    (hst : scrim.status = "completed") (hep : scrim.elo_processed = false)
    (hw : scrim.winner_team = some winner)
    (hT : team1Of d sid = [] ∨ team2Of d sid = []) :
    processMatch none d sid = (.ok .SkippedIncompleteTeams, d) := by
  rw [processMatch_none_eq]
  unfold processMatchSeq
  rw [processMatchPure_skipped d sid scrim winner hfind hst hep hw]
  rcases hT with h | h
  · unfold team1Of at h
    exact Or.inl (by rw [h]; rfl)
  · unfold team2Of at h
    exact Or.inr (by rw [h]; rfl)

/-- All participants on one team: the witness database for the skip path. -/
def dW7 : DB :=
  ⟨[⟨1, "completed", "Academy", some 1, false⟩],
   [⟨1, 10⟩, ⟨1, 20⟩],
   [⟨1, 10, 1⟩, ⟨1, 20, 1⟩],
   [], []⟩

theorem C7_skipped_incomplete_teams_witness :
    processMatch none dW7 1 = (.ok .SkippedIncompleteTeams, dW7) :=
  C7_skipped_incomplete_teams dW7 1 ⟨1, "completed", "Academy", some 1, false⟩ 1
    rfl rfl rfl rfl (Or.inr (by decide))

/-- C8: the processed flag is one-way. Whatever happens in a call (any
failure plan, any target id), the scrims table is either untouched or
rewritten only by setting the target id's flag to true; and a later call
on a match whose stored flag is already true performs no writes — it is
an `AlreadyProcessed` no-op or a thrown precondition error, both leaving
the database at its pre-call value. -/
theorem C8_processed_flag_one_way (fa : Option Nat) (d : DB) (sid : Nat) :
    ((processMatch fa d sid).2.scrims = d.scrims ∨
      (processMatch fa d sid).2.scrims = d.scrims.map fun s =>
        if s.id = sid then { s with elo_processed := true } else s) ∧
    (∀ scrim, findScrim d sid = some scrim → scrim.elo_processed = true →
      processMatch none d sid = (.ok .AlreadyProcessed, d) ∨
        ∃ e, processMatch none d sid = (.error e, d)) := by
  constructor
  · rcases processMatch_cases fa d sid with h | h
    · left; rw [h]
    · rw [h, processMatch_none_eq]
      unfold processMatchSeq
      rcases processMatchPure_outcome_cases d sid with hc | hc | ⟨e, hc⟩ | ⟨scrim, winner, _, _, _, _, hc⟩
      · left; rw [hc]
      · left; rw [hc]
      · left; rw [hc]
      · right
        rw [hc]
        show (processedDB d sid scrim winner).scrims = _
        rw [processedDB_scrims]
        rfl
  · intro scrim hfind hproc
    by_cases hst : scrim.status = "completed"
    · left
      rw [processMatch_none_eq]
      unfold processMatchSeq
      rw [processMatchPure_already d sid scrim hfind hst hproc]
    · right
      refine ⟨"Scrim is not completed", ?_⟩
      rw [processMatch_none_eq]
      unfold processMatchSeq
      rw [processMatchPure_notCompleted d sid scrim hfind hst]

/-- Witness database with the processed flag already set. -/
def dW8 : DB :=
  ⟨[⟨1, "completed", "Academy", some 1, true⟩],
   [⟨1, 10⟩, ⟨1, 20⟩],
   [⟨1, 10, 1⟩, ⟨1, 20, 2⟩],
   [⟨10, "Academy", 1016, 1, 0⟩, ⟨20, "Academy", 984, 0, 1⟩],
   [⟨10, 1, 1000, 1016⟩, ⟨20, 1, 1000, 984⟩]⟩

theorem C8_processed_flag_one_way_witness :
    ((processMatch (some 3) dW8 1).2.scrims = dW8.scrims ∨
      (processMatch (some 3) dW8 1).2.scrims = dW8.scrims.map fun s =>
        if s.id = 1 then { s with elo_processed := true } else s) ∧
    (processMatch none dW8 1 = (.ok .AlreadyProcessed, dW8) ∨
      ∃ e, processMatch none dW8 1 = (.error e, dW8)) :=
  ⟨(C8_processed_flag_one_way (some 3) dW8 1).1,
   (C8_processed_flag_one_way none dW8 1).2 ⟨1, "completed", "Academy", some 1, true⟩ rfl rfl⟩

/-- The value the TypeScript caller receives: `processMatch` is declared
`Promise<void>`, so a successful call resolves with no payload and a
failed call rejects with the thrown error. -/
noncomputable def processMatchReturn (fa : Option Nat) (d : DB) (sid : Nat) :
    Except String Unit :=
  match (processMatch fa d sid).1 with
  | .ok _ => .ok ()
  | .error e => .error e

/-- Helper: a thrown call leaves the committed store at its pre-call value. -/
theorem processMatch_err_db (fa : Option Nat) (d : DB) (sid : Nat) (e : String)
    (h : (processMatch fa d sid).1 = .error e) : (processMatch fa d sid).2 = d := by
  unfold processMatch at h ⊢
  rcases hrun : runP (processMatchProg sid) ⟨⟨d, none⟩, 0, fa⟩ with ⟨r, s⟩
  cases r with
  | ok o =>
    rw [hrun] at h
    simp at h
  | error e0 => exact processMatchProg_err_committed sid d fa e0 s hrun

/-- C5 counterexample: three calls that take the three distinct terminal
paths — Processed, AlreadyProcessed, SkippedIncompleteTeams — all resolve
with the identical void value, so the success value returned to the caller
does not distinguish the outcomes. -/
theorem C5_return_counterexample :
    (processMatch none dW 1).1 = .ok .Processed ∧
    (processMatch none dW8 1).1 = .ok .AlreadyProcessed ∧
    (processMatch none dW7 1).1 = .ok .SkippedIncompleteTeams ∧
    processMatchReturn none dW 1 = .ok () ∧
    processMatchReturn none dW8 1 = .ok () ∧
    processMatchReturn none dW7 1 = .ok () ∧
    processMatchReturn none dW 1 = processMatchReturn none dW8 1 ∧
    processMatchReturn none dW 1 = processMatchReturn none dW7 1 :=
  ⟨rfl, rfl, rfl, rfl, rfl, rfl, rfl, rfl⟩

/-- C5 amended: processMatch resolves with void — every successful call
returns the same unit value whichever internal outcome occurred, a failed
call surfaces the thrown error — and it is safe to call repeatedly on the
same id: a repeat call after a successful processing run is an
`AlreadyProcessed` no-op with no writes. -/
theorem C5_processMatch_void_safe_repeat (d : DB) (sid : Nat) :
    (∀ o d1, processMatch none d sid = (.ok o, d1) → processMatchReturn none d sid = .ok ()) ∧
    (∀ e d1, processMatch none d sid = (.error e, d1) →
      processMatchReturn none d sid = .error e) ∧
    (∀ d1, processMatch none d sid = (.ok .Processed, d1) →
      processMatch none d1 sid = (.ok .AlreadyProcessed, d1)) := by
  refine ⟨?_, ?_, ?_⟩
  · intro o d1 h
    unfold processMatchReturn
    rw [h]
  · intro e d1 h
    unfold processMatchReturn
    rw [h]
  · intro d1 h
    rw [processMatch_none_eq] at h
    unfold processMatchSeq at h
    rcases processMatchPure_outcome_cases d sid with hc | hc | ⟨e, hc⟩ | ⟨scrim, winner, hfind, hst, hep, hw, hc⟩
    · rw [hc] at h; simp at h
    · rw [hc] at h; simp at h
    · rw [hc] at h; simp at h
    · rw [hc] at h
      simp only [Prod.mk.injEq, Except.ok.injEq] at h
      have hd1 : d1 = processedDB d sid scrim winner := h.2.symm
      subst hd1
      rw [processMatch_none_eq]
      unfold processMatchSeq
      rw [processMatchPure_second d sid scrim winner hfind hst]

theorem C5_processMatch_void_safe_repeat_witness :
    processMatchReturn none dW 1 = .ok () ∧
    processMatch none (processMatch none dW 1).2 1 =
      (.ok .AlreadyProcessed, (processMatch none dW 1).2) :=
  ⟨(C5_processMatch_void_safe_repeat dW 1).1 .Processed (processMatch none dW 1).2 rfl,
   (C5_processMatch_void_safe_repeat dW 1).2.2 (processMatch none dW 1).2 rfl⟩

/-- C3: processMatch is atomic — whichever statement of the unit a store
failure hits (any injected failure point), if the call throws then every
buffered write is discarded and the committed database — rating records,
history entries and the processed flag — equals its pre-call value; the
error itself is what the caller observes. -/
theorem C3_processMatch_atomic (fa : Option Nat) (d : DB) (sid : Nat) (e : String)
    (h : (processMatch fa d sid).1 = .error e) :
    (processMatch fa d sid).2 = d :=
  processMatch_err_db fa d sid e h

/-- Witness: the failure is injected at statement 9 of the two-player run —
after both teams' deltas are computed and buffered, right before the last
write of the unit (the processed-flag UPDATE) — and the store is unchanged. -/
theorem C3_processMatch_atomic_witness :
    (processMatch (some 9) dW 1).1 = .error "query failed" ∧
    (processMatch (some 9) dW 1).2 = dW :=
  ⟨rfl, C3_processMatch_atomic (some 9) dW 1 "query failed" rfl⟩

/-- The discovery query of `startEloPolling`: completed scrims with a
declared winner whose Elo is not yet processed. -/
def pollQuery (d : DB) : List Nat :=
  (d.scrims.filter fun s =>
    s.status == "completed" && !s.elo_processed && s.winner_team.isSome).map fun s => s.id

/-- The for-loop of one scan cycle of `startEloPolling`: invoke
`processMatch` on each discovered id in order.  The `try/catch` wraps the
whole loop, so a thrown error ends the loop — it is caught and logged at
the cycle boundary.  Returns the invocation log and the final store. -/
noncomputable def pollLoop (failPlan : Nat → Option Nat) :
    List Nat → DB → List (Nat × Except String Outcome) × DB
  | [], d => ([], d)
  | id :: rest, d =>
    match processMatch (failPlan id) d id with
    | (.ok o, d1) =>
      let r := pollLoop failPlan rest d1
      ((id, .ok o) :: r.1, r.2)
    | (.error e, d1) => ([(id, .error e)], d1)

/-- One full scan cycle: discovery query, then the loop. -/
noncomputable def pollCycle (failPlan : Nat → Option Nat) (d : DB) :
    List (Nat × Except String Outcome) × DB :=
  pollLoop failPlan (pollQuery d) d

/-- Two eligible scrims for the polling counterexample. -/
def dW4 : DB :=
  ⟨[⟨1, "completed", "Academy", some 1, false⟩, ⟨2, "completed", "Academy", some 2, false⟩],
   [⟨1, 10⟩, ⟨1, 20⟩, ⟨2, 10⟩, ⟨2, 20⟩],
   [⟨1, 10, 1⟩, ⟨1, 20, 2⟩, ⟨2, 10, 1⟩, ⟨2, 20, 2⟩],
   [], []⟩

/-- Failure plan hitting only match 1 (its scrim SELECT statement). -/
def fp4 : Nat → Option Nat := fun id => if id = 1 then some 1 else none

/-- C4 counterexample: both scrims 1 and 2 are discovered by the scan, a
store error on scrim 1 aborts the loop, and scrim 2 is never invoked in
that cycle — the log of the cycle contains only the failed first entry. -/
theorem C4_error_aborts_cycle_counterexample :
    pollQuery dW4 = [1, 2] ∧
    pollCycle fp4 dW4 = ([(1, .error "query failed")], dW4) :=
  ⟨rfl, rfl⟩

theorem pollLoop_map_fst_initialSegment (failPlan : Nat → Option Nat) :
    ∀ (ids : List Nat) (d : DB),
      ((pollLoop failPlan ids d).1.map fun q => q.1) <+: ids := by
  intro ids
  induction ids with
  | nil => intro d; exact ⟨[], rfl⟩
  | cons id rest ih =>
    intro d
    rcases hpm : processMatch (failPlan id) d id with ⟨r, d1⟩
    cases r with
    | ok o =>
      rcases ih d1 with ⟨t, ht⟩
      refine ⟨t, ?_⟩
      show ((pollLoop failPlan (id :: rest) d).1.map fun q => q.1) ++ t = id :: rest
      unfold pollLoop
      rw [hpm]
      simp only [List.map_cons, List.cons_append, ht]
    | error e =>
      refine ⟨rest, ?_⟩
      show ((pollLoop failPlan (id :: rest) d).1.map fun q => q.1) ++ rest = id :: rest
      unfold pollLoop
      rw [hpm]
      rfl

theorem pollLoop_error_last (failPlan : Nat → Option Nat) :
    ∀ (ids : List Nat) (d : DB) (pre : List (Nat × Except String Outcome))
      (q : Nat × Except String Outcome) (post : List (Nat × Except String Outcome)),
      (pollLoop failPlan ids d).1 = pre ++ q :: post →
      ∀ e, q.2 = .error e → post = [] := by
  intro ids
  induction ids with
  | nil =>
    intro d pre q post h e hq
    simp only [pollLoop] at h
    cases pre <;> simp at h
  | cons id rest ih =>
    intro d pre q post h e hq
    unfold pollLoop at h
    rcases hpm : processMatch (failPlan id) d id with ⟨r, d1⟩
    rw [hpm] at h
    cases r with
    | ok o =>
      cases pre with
      | nil =>
        simp only [List.nil_append, List.cons.injEq] at h
        rw [← h.1] at hq
        simp at hq
      | cons p0 pre' =>
        simp only [List.cons_append, List.cons.injEq] at h
        exact ih d1 pre' q post h.2 e hq
    | error e0 =>
      cases pre with
      | nil =>
        simp only [List.nil_append, List.cons.injEq] at h
        exact h.2.symm
      | cons p0 pre' =>
        simp only [List.cons_append, List.cons.injEq] at h
        rcases h with ⟨-, h2⟩
        cases pre' <;> simp at h2

/-- C4 amended: during a scan cycle the invoked ids are an initial
segment of the discovered ids, and an error from processMatch is caught at
the cycle boundary (the catch wraps the whole loop), aborting the
remainder of the cycle — the failed invocation is always the last entry
of the cycle's log; later discovered ids wait for the next cycle. -/
theorem C4_error_logged_aborts_cycle (failPlan : Nat → Option Nat) (d : DB) :
    (((pollCycle failPlan d).1.map fun q => q.1) <+: pollQuery d) ∧
    (∀ pre q post, (pollCycle failPlan d).1 = pre ++ q :: post →
      ∀ e, q.2 = .error e → post = []) :=
  ⟨pollLoop_map_fst_initialSegment failPlan (pollQuery d) d,
   fun pre q post h e hq => pollLoop_error_last failPlan (pollQuery d) d pre q post h e hq⟩

theorem C4_error_logged_aborts_cycle_witness :
    (((pollCycle fp4 dW4).1.map fun q => q.1) <+: pollQuery dW4) ∧
    ([] : List (Nat × Except String Outcome)) = [] :=
  ⟨(C4_error_logged_aborts_cycle fp4 dW4).1,
   (C4_error_logged_aborts_cycle fp4 dW4).2 [] (1, .error "query failed") [] rfl
     "query failed" rfl⟩

/-- C9: a participant with no stored rating row starts the computation
from the in-memory default (rating 1000, zero counters); nothing is
persisted for them by any failing run (the row still does not exist); and
the first successful run creates their row as a side effect, with rating
the Elo update of 1000 and counters reflecting exactly this one match. -/
theorem C9_lazy_default_rating
    (d : DB) (sid : Nat) (scrim : Scrim) (winner : Nat) (p : ScrimPlayer)
    (hfind : findScrim d sid = some scrim)
    (hst : scrim.status = "completed") (hep : scrim.elo_processed = false)
    (hw : scrim.winner_team = some winner)
    (hnd : ((playersQuery d sid).map fun q => q.player_id).Nodup)
    (ht1 : team1Of d sid ≠ []) (ht2 : team2Of d sid ≠ [])
    (hnor : findRating d p.player_id scrim.league = none) :
    (p ∈ playersQuery d sid →
      mapGet (ratingsOf d sid scrim.league) p.player_id =
        some (defaultRating p.player_id scrim.league)) ∧
    (∀ fa e, (processMatch fa d sid).1 = .error e →
      findRating (processMatch fa d sid).2 p.player_id scrim.league = none) ∧
    processMatch none d sid = (.ok .Processed, processedDB d sid scrim winner) ∧
    (p ∈ team1Of d sid →
      findRating (processedDB d sid scrim winner) p.player_id scrim.league =
        some ⟨p.player_id, scrim.league,
          calculateNewRating ((1000 : ℤ) : ℚ) (team2AvgOf d sid scrim.league)
            (if winner = 1 then 1 else 0),
          if winner = 1 then 1 else 0, if winner = 1 then 0 else 1⟩) ∧
    (p ∈ team2Of d sid →
      findRating (processedDB d sid scrim winner) p.player_id scrim.league =
        some ⟨p.player_id, scrim.league,
          calculateNewRating ((1000 : ℤ) : ℚ) (team1AvgOf d sid scrim.league)
            (if winner = 2 then 1 else 0),
          if winner = 2 then 1 else 0, if winner = 2 then 0 else 1⟩) := by
  have hT : ¬(((playersQuery d sid).filter fun p => p.team_id == some 1).length = 0 ∨
      ((playersQuery d sid).filter fun p => p.team_id == some 2).length = 0) := by
    rintro (h | h)
    · exact ht1 (List.length_eq_zero.mp h)
    · exact ht2 (List.length_eq_zero.mp h)
  refine ⟨?_, ?_, ?_, ?_, ?_⟩
  · intro hp
    unfold ratingsOf
    rw [mapGet_ratingsMapOf _ _ _ _ (List.mem_map.mpr ⟨p, hp, rfl⟩), hnor]
    rfl
  · intro fa e he
    rw [processMatch_err_db fa d sid e he]
    exact hnor
  · rw [processMatch_none_eq]
    unfold processMatchSeq
    rw [processMatchPure_processed d sid scrim winner hfind hst hep hw hT]
  · intro hp
    rw [processedDB_rating_team1 d sid scrim winner hnd p hp]
    unfold postRecord
    rw [hnor]
    simp only [decide_eq_true_eq]
  · intro hp
    rw [processedDB_rating_team2 d sid scrim winner hnd p hp]
    unfold postRecord
    rw [hnor]
    simp only [decide_eq_true_eq]

theorem C9_lazy_default_rating_witness :
    (⟨10, some 1⟩ ∈ playersQuery dW 1 →
      mapGet (ratingsOf dW 1 "Academy") 10 = some (defaultRating 10 "Academy")) ∧
    (∀ fa e, (processMatch fa dW 1).1 = .error e →
      findRating (processMatch fa dW 1).2 10 "Academy" = none) ∧
    processMatch none dW 1 =
      (.ok .Processed, processedDB dW 1 ⟨1, "completed", "Academy", some 1, false⟩ 1) ∧
    ((⟨10, some 1⟩ : ScrimPlayer) ∈ team1Of dW 1 →
      findRating (processedDB dW 1 ⟨1, "completed", "Academy", some 1, false⟩ 1) 10 "Academy" =
        some ⟨10, "Academy",
          calculateNewRating ((1000 : ℤ) : ℚ) (team2AvgOf dW 1 "Academy") 1, 1, 0⟩) ∧
    ((⟨10, some 1⟩ : ScrimPlayer) ∈ team2Of dW 1 →
      findRating (processedDB dW 1 ⟨1, "completed", "Academy", some 1, false⟩ 1) 10 "Academy" =
        some ⟨10, "Academy",
          calculateNewRating ((1000 : ℤ) : ℚ) (team1AvgOf dW 1 "Academy") 0, 0, 1⟩) :=
  C9_lazy_default_rating dW 1 ⟨1, "completed", "Academy", some 1, false⟩ 1 ⟨10, some 1⟩
    rfl rfl rfl rfl (by decide) (by decide) (by decide) rfl

/-- C10 (implicit behaviour): when both team partitions are non-empty, a
participant whose team slot is NULL falls in neither partition and is
silently excluded — their rating rows (in every league) and their history
entries for the match are untouched — yet the match is still marked
processed, and a later call is an `AlreadyProcessed` no-op, so they are
never rated for this match. -/
theorem C10_null_team_participant_excluded
    (d : DB) (sid : Nat) (scrim : Scrim) (winner : Nat) (p : ScrimPlayer)
    (hfind : findScrim d sid = some scrim)
    (hst : scrim.status = "completed") (hep : scrim.elo_processed = false)
    (hw : scrim.winner_team = some winner) (hsid : scrim.id = sid)
    (hnd : ((playersQuery d sid).map fun q => q.player_id).Nodup)
    (ht1 : team1Of d sid ≠ []) (ht2 : team2Of d sid ≠ [])
    (hp : p ∈ playersQuery d sid) (hteam : p.team_id = none) :
    processMatch none d sid = (.ok .Processed, processedDB d sid scrim winner) ∧
    (∀ lg', findRating (processedDB d sid scrim winner) p.player_id lg' =
      findRating d p.player_id lg') ∧
    historyCount (processedDB d sid scrim winner) p.player_id sid =
      historyCount d p.player_id sid ∧
    findScrim (processedDB d sid scrim winner) sid =
      some { scrim with elo_processed := true } ∧
    processMatch none (processedDB d sid scrim winner) sid =
      (.ok .AlreadyProcessed, processedDB d sid scrim winner) := by
  have hT : ¬(((playersQuery d sid).filter fun p => p.team_id == some 1).length = 0 ∨
      ((playersQuery d sid).filter fun p => p.team_id == some 2).length = 0) := by
    rintro (h | h)
    · exact ht1 (List.length_eq_zero.mp h)
    · exact ht2 (List.length_eq_zero.mp h)
  have h1 : p.player_id ∉ (team1Of d sid).map fun q => q.player_id := by
    intro hmem
    rcases List.mem_map.mp hmem with ⟨q, hq, hq'⟩
    have heq : q = p := List.inj_on_of_nodup_map hnd (team1Of_sub _ _ _ hq) hp hq'
    have hqt : q.team_id = some 1 := by simpa using List.of_mem_filter hq
    rw [heq, hteam] at hqt
    cases hqt
  have h2 : p.player_id ∉ (team2Of d sid).map fun q => q.player_id := by
    intro hmem
    rcases List.mem_map.mp hmem with ⟨q, hq, hq'⟩
    have heq : q = p := List.inj_on_of_nodup_map hnd (team2Of_sub _ _ _ hq) hp hq'
    have hqt : q.team_id = some 2 := by simpa using List.of_mem_filter hq
    rw [heq, hteam] at hqt
    cases hqt
  refine ⟨?_, ?_, ?_, ?_, ?_⟩
  · rw [processMatch_none_eq]
    unfold processMatchSeq
    rw [processMatchPure_processed d sid scrim winner hfind hst hep hw hT]
  · intro lg'
    exact processedDB_rating_other d sid scrim winner p.player_id lg' h1 h2
  · rw [historyCount_processedDB d sid scrim winner _ hsid,
      filter_pid_length_zero _ _ h1, filter_pid_length_zero _ _ h2]
    omega
  · rw [findScrim_processedDB, hfind]
    rfl
  · rw [processMatch_none_eq]
    unfold processMatchSeq
    rw [processMatchPure_second d sid scrim winner hfind hst]

/-- Witness database: players 10 (team 1), 20 (team 2) and 30 with no
team assignment row. -/
def dW10 : DB :=
  ⟨[⟨1, "completed", "Academy", some 1, false⟩],
   [⟨1, 10⟩, ⟨1, 20⟩, ⟨1, 30⟩],
   [⟨1, 10, 1⟩, ⟨1, 20, 2⟩],
   [], []⟩

theorem C10_null_team_participant_excluded_witness :
    processMatch none dW10 1 =
      (.ok .Processed, processedDB dW10 1 ⟨1, "completed", "Academy", some 1, false⟩ 1) ∧
    (∀ lg', findRating (processedDB dW10 1 ⟨1, "completed", "Academy", some 1, false⟩ 1) 30 lg' =
      findRating dW10 30 lg') ∧
    historyCount (processedDB dW10 1 ⟨1, "completed", "Academy", some 1, false⟩ 1) 30 1 =
      historyCount dW10 30 1 ∧
    findScrim (processedDB dW10 1 ⟨1, "completed", "Academy", some 1, false⟩ 1) 1 =
      some ⟨1, "completed", "Academy", some 1, true⟩ ∧
    processMatch none (processedDB dW10 1 ⟨1, "completed", "Academy", some 1, false⟩ 1) 1 =
      (.ok .AlreadyProcessed, processedDB dW10 1 ⟨1, "completed", "Academy", some 1, false⟩ 1) :=
  C10_null_team_participant_excluded dW10 1 ⟨1, "completed", "Academy", some 1, false⟩ 1
    ⟨30, none⟩ rfl rfl rfl rfl rfl (by decide) (by decide) (by decide) (by decide) rfl

/-- Elo update at equal ratings, winner side: 1000 + 32·(1 − 1/2) = 1016. -/
theorem calcNR_equal_win : calculateNewRating 1000 1000 1 = 1016 := by
  unfold calculateNewRating
  dsimp only
  have h0 : ((((1000 : ℚ) - (1000 : ℚ) : ℚ)) : ℝ) / 400 = (0 : ℝ) := by norm_num
  rw [h0, Real.rpow_zero]
  have h1 : (((1000 : ℚ) : ℝ) + 32 * (((1 : ℚ) : ℝ) - 1 / (1 + 1))) = ((1016 : ℤ) : ℝ) := by
    norm_num
  rw [h1, round_intCast]

/-- Elo update at equal ratings, loser side: 1000 + 32·(0 − 1/2) = 984. -/
theorem calcNR_equal_loss : calculateNewRating 1000 1000 0 = 984 := by
  unfold calculateNewRating
  dsimp only
  have h0 : ((((1000 : ℚ) - (1000 : ℚ) : ℚ)) : ℝ) / 400 = (0 : ℝ) := by norm_num
  rw [h0, Real.rpow_zero]
  have h1 : (((1000 : ℚ) : ℝ) + 32 * (((0 : ℚ) : ℝ) - 1 / (1 + 1))) = ((984 : ℤ) : ℝ) := by
    norm_num
  rw [h1, round_intCast]

/-- A winner's new rating never drops below their old rating: the expected
score is strictly below 1, so the update adds a non-negative amount. -/
theorem calcNR_win_ge (c : ℤ) (o : ℚ) : c ≤ calculateNewRating (c : ℚ) o 1 := by
  unfold calculateNewRating
  dsimp only
  set x : ℝ := (((o - (c : ℚ) : ℚ)) : ℝ) / 400 with hx
  have hpos : (0 : ℝ) < (10 : ℝ) ^ x := Real.rpow_pos_of_pos (by norm_num) x
  have hE1 : 1 / (1 + (10 : ℝ) ^ x) < 1 := by
    rw [div_lt_one (by linarith)]
    linarith
  have hE0 : (0 : ℝ) < 1 / (1 + (10 : ℝ) ^ x) := by positivity
  rw [round_eq]
  apply Int.le_floor.mpr
  have hc : ((c : ℚ) : ℝ) = (c : ℝ) := by push_cast; ring
  rw [hc]
  have h1 : ((1 : ℚ) : ℝ) = 1 := by norm_num
  rw [h1]
  nlinarith

/-- A team whose members all carry pre-match rating 1000 averages 1000. -/
theorem teamAvgOf_const (ratings : List (Nat × EloRating)) (lg : String)
    (team : List ScrimPlayer) (hne : team ≠ [])
    (h : ∀ p ∈ team, (curOf ratings lg p).rating = 1000) :
    teamAvgOf ratings lg team = 1000 := by
  unfold teamAvgOf
  have hmap : (team.map fun p =>
      (((mapGet ratings p.player_id).getD (defaultRating p.player_id lg)).rating : ℚ)) =
      team.map fun _ => ((1000 : ℤ) : ℚ) := by
    apply List.map_congr_left
    intro p hp
    rw [show ((mapGet ratings p.player_id).getD (defaultRating p.player_id lg)) =
      curOf ratings lg p from rfl, h p hp]
  rw [hmap, List.map_const', List.sum_replicate, nsmul_eq_mul]
  have hlen : ((team.length : ℚ)) ≠ 0 :=
    Nat.cast_ne_zero.mpr (List.length_pos.mpr hne).ne'
  push_cast
  field_simp

/-- The scrim row of the C6 counterexample. -/
def scrimC6 : Scrim := ⟨1, "completed", "Academy", some 1, false⟩

/-- C6 counterexample database: team 1 holds players rated 1200 and 800
(average 1000), team 2 a single player rated 1000; winner team 1. -/
def dC6 : DB :=
  ⟨[scrimC6],
   [⟨1, 10⟩, ⟨1, 11⟩, ⟨1, 20⟩],
   [⟨1, 10, 1⟩, ⟨1, 11, 1⟩, ⟨1, 20, 2⟩],
   [⟨10, "Academy", 1200, 0, 0⟩, ⟨11, "Academy", 800, 0, 0⟩, ⟨20, "Academy", 1000, 0, 0⟩],
   []⟩

/-- C6 counterexample: both pre-match team averages are 1000, K = 32 and
team 1 is the declared winner, yet the successfully processed rating of
the 1200-rated team-1 player is not 1016 — the formula updates each
player from their own rating, not from the team average. -/
theorem C6_average_1000_counterexample :
    team1AvgOf dC6 1 "Academy" = 1000 ∧
    team2AvgOf dC6 1 "Academy" = 1000 ∧
    processMatch none dC6 1 = (.ok .Processed, processedDB dC6 1 scrimC6 1) ∧
    findRating (processedDB dC6 1 scrimC6 1) 10 "Academy" =
      some (postRecord dC6 "Academy" (team2AvgOf dC6 1 "Academy") 1 true 10) ∧
    (postRecord dC6 "Academy" (team2AvgOf dC6 1 "Academy") 1 true 10).rating ≠ 1016 := by
  refine ⟨?_, ?_, ?_, ?_, ?_⟩
  · have h : team1AvgOf dC6 1 "Academy" =
        (((1200 : ℤ) : ℚ) + (((800 : ℤ) : ℚ) + 0)) / ((2 : ℕ) : ℚ) := rfl
    rw [h]
    norm_num
  · have h : team2AvgOf dC6 1 "Academy" = (((1000 : ℤ) : ℚ) + 0) / ((1 : ℕ) : ℚ) := rfl
    rw [h]
    norm_num
  · rw [processMatch_none_eq]
    unfold processMatchSeq
    rw [processMatchPure_processed dC6 1 scrimC6 1 rfl rfl rfl rfl (by decide)]
  · exact processedDB_rating_team1 dC6 1 scrimC6 1 (by decide) ⟨10, some 1⟩ (by decide)
  · intro hcon
    have hrow : findRating dC6 10 "Academy" = some ⟨10, "Academy", 1200, 0, 0⟩ := rfl
    unfold postRecord at hcon
    rw [hrow] at hcon
    have hge := calcNR_win_ge 1200 (team2AvgOf dC6 1 "Academy")
    rw [show (((1200 : ℤ) : ℚ)) = ((⟨10, "Academy", 1200, 0, 0⟩ : EloRating).rating : ℚ)
      from rfl] at hge
    simp only at hcon
    rw [hcon] at hge
    omega

/-- C6 amended: when every participant's pre-match rating is exactly 1000
(so both team averages are 1000), K = 32 and team 1 is the declared
winner, successful processing sets every team-1 participant's rating to
1016 and every team-2 participant's to 984. -/
theorem C6_uniform_1000_ratings_amended
    (d : DB) (sid : Nat) (scrim : Scrim)
    (hfind : findScrim d sid = some scrim)
    (hst : scrim.status = "completed") (hep : scrim.elo_processed = false)
    (hw : scrim.winner_team = some 1)
    (hnd : ((playersQuery d sid).map fun q => q.player_id).Nodup)
    (ht1 : team1Of d sid ≠ []) (ht2 : team2Of d sid ≠ [])
    (H1000 : ∀ p ∈ playersQuery d sid,
      (curOf (ratingsOf d sid scrim.league) scrim.league p).rating = 1000) :
    team1AvgOf d sid scrim.league = 1000 ∧
    team2AvgOf d sid scrim.league = 1000 ∧
    processMatch none d sid = (.ok .Processed, processedDB d sid scrim 1) ∧
    (∀ p ∈ team1Of d sid,
      (findRating (processedDB d sid scrim 1) p.player_id scrim.league).map
        (fun r => r.rating) = some 1016) ∧
    (∀ p ∈ team2Of d sid,
      (findRating (processedDB d sid scrim 1) p.player_id scrim.league).map
        (fun r => r.rating) = some 984) := by
  have hT : ¬(((playersQuery d sid).filter fun p => p.team_id == some 1).length = 0 ∨
      ((playersQuery d sid).filter fun p => p.team_id == some 2).length = 0) := by
    rintro (h | h)
    · exact ht1 (List.length_eq_zero.mp h)
    · exact ht2 (List.length_eq_zero.mp h)
  have hcast : ((1000 : ℤ) : ℚ) = (1000 : ℚ) := by norm_num
  have havg1 : team1AvgOf d sid scrim.league = 1000 := by
    unfold team1AvgOf
    exact teamAvgOf_const _ _ _ ht1 fun p hp => H1000 p (team1Of_sub d sid p hp)
  have havg2 : team2AvgOf d sid scrim.league = 1000 := by
    unfold team2AvgOf
    exact teamAvgOf_const _ _ _ ht2 fun p hp => H1000 p (team2Of_sub d sid p hp)
  have hpre : ∀ p ∈ playersQuery d sid,
      ((findRating d p.player_id scrim.league).getD
        (defaultRating p.player_id scrim.league)).rating = 1000 := by
    intro p hp
    have hmem := H1000 p hp
    unfold curOf ratingsOf at hmem
    rw [mapGet_ratingsMapOf _ _ _ _ (List.mem_map.mpr ⟨p, hp, rfl⟩)] at hmem
    simpa using hmem
  refine ⟨havg1, havg2, ?_, ?_, ?_⟩
  · rw [processMatch_none_eq]
    unfold processMatchSeq
    rw [processMatchPure_processed d sid scrim 1 hfind hst hep hw hT]
  · intro p hp
    rw [processedDB_rating_team1 d sid scrim 1 hnd p hp]
    have hr := hpre p (team1Of_sub d sid p hp)
    unfold postRecord
    cases hf : findRating d p.player_id scrim.league with
    | some r =>
      rw [hf] at hr
      simp only [Option.getD_some] at hr
      simp only [Option.map_some']
      rw [hr, hcast, havg2]
      norm_num [calcNR_equal_win]
    | none =>
      simp only [Option.map_some']
      rw [hcast, havg2]
      norm_num [calcNR_equal_win]
  · intro p hp
    rw [processedDB_rating_team2 d sid scrim 1 hnd p hp]
    have hr := hpre p (team2Of_sub d sid p hp)
    unfold postRecord
    cases hf : findRating d p.player_id scrim.league with
    | some r =>
      rw [hf] at hr
      simp only [Option.getD_some] at hr
      simp only [Option.map_some']
      rw [hr, hcast, havg1]
      norm_num [calcNR_equal_loss]
    | none =>
      simp only [Option.map_some']
      rw [hcast, havg1]
      norm_num [calcNR_equal_loss]

theorem C6_uniform_1000_ratings_amended_witness :
    team1AvgOf dW 1 "Academy" = 1000 ∧
    team2AvgOf dW 1 "Academy" = 1000 ∧
    processMatch none dW 1 =
      (.ok .Processed, processedDB dW 1 ⟨1, "completed", "Academy", some 1, false⟩ 1) ∧
    (∀ p ∈ team1Of dW 1,
      (findRating (processedDB dW 1 ⟨1, "completed", "Academy", some 1, false⟩ 1)
        p.player_id "Academy").map (fun r => r.rating) = some 1016) ∧
    (∀ p ∈ team2Of dW 1,
      (findRating (processedDB dW 1 ⟨1, "completed", "Academy", some 1, false⟩ 1)
        p.player_id "Academy").map (fun r => r.rating) = some 984) :=
  C6_uniform_1000_ratings_amended dW 1 ⟨1, "completed", "Academy", some 1, false⟩
    rfl rfl rfl rfl (by decide) (by decide) (by decide) (by decide)

/-! Concurrent execution.  The repository's SQL sets no isolation level
and takes no row lock (the guard `SELECT * FROM scrims` has no
`FOR UPDATE`), so two simultaneous `processMatch` transactions run under
PostgreSQL's default READ COMMITTED isolation: every statement reads the
latest committed data overlaid with the client's own uncommitted writes,
and writes become visible to others only at COMMIT. -/

/-- One client of the concurrent semantics: the statements still to run
with the client's open-transaction writes, or a finished call. -/
inductive CStat : Type 1 where
  | running (p : Prog Outcome) (txn : Option (DB → DB))
  | done (r : Except String Outcome)

/-- One statement of one client against the shared committed store
(READ COMMITTED, as above).  A finished client does not move.  A client
reaching `fail` has its transaction discarded by the catch-block ROLLBACK
and rethrows. -/
noncomputable def cstep : CStat → DB → CStat × DB
  | .running (.pure o) _, w => (.done (.ok o), w)
  | .running (.fail e) _, w => (.done (.error e), w)
  | .running (.bind op k) txn, w =>
    match op, k with
    | .beginTx, k => (.running (k ()) (some id), w)
    | .commitTx, k =>
      match txn with
      | some f => (.running (k ()) none, f w)
      | none => (.running (k ()) none, w)
    | .rollbackTx, k => (.running (k ()) none, w)
    | op2, k =>
      match txn with
      | some f => (.running (k (op2.res (f w))) (some fun db => op2.wr (f db)), w)
      | none => (.running (k (op2.res w)) none, op2.wr w)
  | .done r, w => (.done r, w)

/-- Interleaved execution of two clients over the shared committed store:
`true` steps client 1, `false` steps client 2. -/
noncomputable def runCC : List Bool → CStat × CStat × DB → CStat × CStat × DB
  | [], st => st
  | b :: rest, (c1, c2, w) =>
    if b then
      let s := cstep c1 w
      runCC rest (s.1, c2, s.2)
    else
      let s := cstep c2 w
      runCC rest (c1, s.1, s.2)

/-- The racy schedule: client 2 executes BEGIN and the guard SELECT
(observing `elo_processed = FALSE`), then client 1 runs to COMMIT, then
client 2 finishes its already-guarded run. -/
def raceSchedule : List Bool :=
  [false, false] ++ List.replicate 13 true ++ List.replicate 12 false

/-- C1: double processing under concurrency.  A single sequential call
writes exactly one history row for player 10 and one win.  But under the
racy schedule — both clients pass the `elo_processed` guard before either
commits, which nothing in the code prevents — both calls finish on the
`Processed` path and the committed store ends with two history rows for
player 10 on scrim 1 and a win counter of 2 for its single win: the very
state the specification says must be impossible. -/
theorem C1_concurrent_double_processing :
    historyCount (processMatch none dW 1).2 10 1 = 1 ∧
    ((findRating (processMatch none dW 1).2 10 "Academy").map fun r => r.wins) = some 1 ∧
    (runCC raceSchedule
      (.running (processMatchProg 1) none, .running (processMatchProg 1) none, dW)).1 =
      .done (.ok .Processed) ∧
    (runCC raceSchedule
      (.running (processMatchProg 1) none, .running (processMatchProg 1) none, dW)).2.1 =
      .done (.ok .Processed) ∧
    historyCount (runCC raceSchedule
      (.running (processMatchProg 1) none, .running (processMatchProg 1) none, dW)).2.2
      10 1 = 2 ∧
    ((findRating (runCC raceSchedule
      (.running (processMatchProg 1) none, .running (processMatchProg 1) none, dW)).2.2
      10 "Academy").map fun r => r.wins) = some 2 :=
  ⟨rfl, rfl, rfl, rfl, rfl, rfl⟩
